import Mathlib

/-!
Verification development for the cobwebAI-llmlib retrieval engine
(`cobwebai_lib/vdb.py` and `cobwebai_lib/llm.py`).

Python strings are embedded as `List Char` (`Str`): `len` is `List.length`,
`+` is `++`, `str.strip()` is `pyStrip`.  The ChromaDB backend is embedded as
an explicit store (`Store`): one collection per tenant, each collection an
ordered list of entries keyed by id.  Per the `VectorDB` class docstring
("Embeddings stored in a collection are guaranteed to be unique (by
overwriting)"), `collection.add` is embedded as add-or-overwrite keyed by id.
Backend availability is a flag on the store (`avail`); an unavailable backend
makes every backend acquisition raise, embedded with `Except`.  Acquiring a
client/collection bumps the `vdbCalls` counter, invoking the chat model bumps
`chatCalls`, so "no backend contact" is visible as an unchanged store.
Backend ranking of query results is abstracted as stored order truncated to
`n_results` (the spec leaves ranking backend-defined); the where-filter is
embedded as a conjunction of field-equality predicates over chunk metadata.
-/

namespace Cobweb

/-- Python strings are embedded as lists of characters. -/
abbrev Str := List Char

/-- Whitespace characters removed by python `str.strip()` (ASCII subset). -/
def isPySpace (c : Char) : Bool :=
  c == ' ' || c == '\t' || c == '\n' || c == '\r' || c == Char.ofNat 11 || c == Char.ofNat 12

/-- Embedding of python `str.strip()`: drop whitespace from both ends. -/
def pyStrip (s : Str) : Str :=
  ((s.dropWhile isPySpace).reverse.dropWhile isPySpace).reverse

/-- The `chunk_size=1000` argument of the splitter in `VectorDB.__init__`. -/
def CHUNK_SIZE : Nat := 1000

/-- The `chunk_overlap=200` argument of the splitter in `VectorDB.__init__`. -/
def CHUNK_OVERLAP : Nat := 200

/-- Modelled from the spec (§4.2 ChunkingPolicy) and the splitter
configuration in `VectorDB.__init__` (the splitter itself is the third-party
`RecursiveCharacterTextSplitter(chunk_size=1000, chunk_overlap=200,
add_start_index=True)`, not part of this repository): a deterministic sliding
window of size `CHUNK_SIZE` advancing by `CHUNK_SIZE - CHUNK_OVERLAP`,
recording each window's start offset.  The fuel argument only forces
structural termination; `splitText` supplies fuel that is never exhausted. -/
def slideAux : Nat → Str → Nat → List (Str × Nat)
  | 0, _, _ => []
  | fuel + 1, cs, off =>
    if cs.length ≤ CHUNK_SIZE then [(cs, off)]
    else
      (cs.take CHUNK_SIZE, off) ::
        slideAux fuel (cs.drop (CHUNK_SIZE - CHUNK_OVERLAP)) (off + (CHUNK_SIZE - CHUNK_OVERLAP))

/-- Modelled from the spec (§4.2): splitting strips the text (the splitter's
default `strip_whitespace=True`) and yields no chunk for empty input, else the
sliding windows with offsets. -/
def splitText (text : Str) : List (Str × Nat) :=
  let t := pyStrip text
  if t.isEmpty then [] else slideAux t.length t 0

/-- Modelled: `uuid5(UUID(int=0x12345678123456781234567812345678), name)` in
`VectorDB._split_documents` is a deterministic cryptographic hash of `name`;
it is embedded as an injective function of `name` (collision-freedom of the
hash assumed, as in spec §4.3 which treats ids as collision-free). -/
def uuid5Name (name : Str) : Str := name

/-- Chunk metadata as built by `VectorDB._prepare_document` plus the
`start_index` added by the splitter's `add_start_index=True`. -/
structure ChunkMeta where
  project_id : Str
  document_id : Str
  start_index : Nat
deriving DecidableEq

/-- One stored embedding entry of a collection: id, document text, metadata. -/
structure Entry where
  id : Str
  content : Str
  meta : ChunkMeta
deriving DecidableEq

/-- Embedding of `VectorDB._split_documents` applied (as by
`_prepare_document`) to the single document with the given metadata: each
chunk is hashed over `content + project_id + document_id`. -/
def splitDocuments (project_id document_id text : Str) : List Entry :=
  (splitText text).map fun p =>
    { id := uuid5Name (p.1 ++ project_id ++ document_id),
      content := p.1,
      meta := { project_id := project_id, document_id := document_id, start_index := p.2 } }

/-- Embedding of `VectorDB._prepare_document`: the entries to be written for
one document (ids, contents and metadatas are the fields of the entries). -/
def prepareDocument (project_id document_id text : Str) : List Entry :=
  splitDocuments project_id document_id text

/-- A Chroma collection: ordered list of stored entries. -/
abbrev Collection := List Entry

/-- The backend state: one collection per tenant (`user_id`), an availability
flag (`avail = false` makes every backend acquisition raise), and counters of
backend acquisitions (`vdbCalls`) and chat-model invocations (`chatCalls`). -/
structure Store where
  collections : List (Str × Collection)
  avail : Bool
  vdbCalls : Nat
  chatCalls : Nat
deriving DecidableEq

/-- The store with no collections and an available backend. -/
def emptyStore : Store :=
  { collections := [], avail := true, vdbCalls := 0, chatCalls := 0 }

/-- Collection lookup by tenant name. -/
def lookupCollection (s : Store) (u : Str) : Option Collection :=
  (s.collections.find? fun p => p.1 == u).map fun p => p.2

/-- Write back a tenant's collection (replacing any previous one). -/
def setCollection (s : Store) (u : Str) (c : Collection) : Store :=
  { s with collections := (u, c) :: s.collections.filter fun p => p.1 != u }

/-- The collection `get_or_create_collection` hands back: the existing one,
or the fresh empty one. -/
def baseCollection (s : Store) (u : Str) : Collection :=
  (lookupCollection s u).getD []

/-- Embedding of `VectorDB._try_get_chroma_collection`: `None` when the
collection does not exist (the caught `InvalidCollectionException` /
`ValueError`), an exception when the backend is unreachable. -/
def tryGetCollection (s : Store) (u : Str) : Except Unit (Store × Option Collection) :=
  if s.avail then
    Except.ok ({ s with vdbCalls := s.vdbCalls + 1 }, lookupCollection s u)
  else Except.error ()

/-- Embedding of `VectorDB._get_or_create_chroma_collection`. -/
def getOrCreateCollection (s : Store) (u : Str) : Except Unit (Store × Collection) :=
  if s.avail then
    let s1 := { s with vdbCalls := s.vdbCalls + 1 }
    match lookupCollection s u with
    | some c => Except.ok (s1, c)
    | none => Except.ok (setCollection s1 u [], [])
  else Except.error ()

/-- Embedding of one `collection.add` write for a single entry: add-or-
overwrite keyed by id, per the `VectorDB` class docstring ("guaranteed to be
unique (by overwriting)"): the entry with the same id, if any, is replaced in
place, otherwise the new entry is appended. -/
def addEntry : Collection → Entry → Collection
  | [], e => [e]
  | x :: rest, e => if x.id == e.id then e :: rest else x :: addEntry rest e

/-- Embedding of `collection.add(ids, metadatas, documents)`: the entries are
written left to right. -/
def collectionAdd (c : Collection) (es : List Entry) : Collection :=
  es.foldl addEntry c

/-- The ids of a collection's entries, in stored order. -/
def idsOf (c : Collection) : List Str :=
  c.map fun e => e.id

/-- The first stored entry with the given id, if any. -/
def entryAt (c : Collection) (i : Str) : Option Entry :=
  c.find? fun e => e.id == i

/-- The last entry with the given id in a write batch, if any (the one an
add-or-overwrite sequence leaves in the store). -/
def lastWrite : List Entry → Str → Option Entry
  | [], _ => none
  | e :: rest, i =>
    match lastWrite rest i with
    | some v => some v
    | none => if e.id == i then some e else none

/-- The where-filter used by `retrieve` / `store_and_retrieve` / deletes:
conjunction of the supplied field-equality predicates (spec §6). -/
def whereMatches (projF docF : Option Str) (m : ChunkMeta) : Bool :=
  (match projF with | some p => m.project_id == p | none => true) &&
  (match docF with | some d => m.document_id == d | none => true)

/-- The entries of a collection matching a where-filter. -/
def filterMatch (projF docF : Option Str) (c : Collection) : Collection :=
  c.filter fun e => whereMatches projF docF e.meta

/-- Embedding of `collection.query(..., where, n_results, include=[documents])`:
the matching documents, backend ranking abstracted as stored order, truncated
to `n_results`. -/
def collectionQuery (c : Collection) (projF docF : Option Str) (k : Nat) : List Str :=
  ((filterMatch projF docF c).map fun e => e.content).take k

/-- Embedding of `collection.delete(where=...)`. -/
def collectionDeleteWhere (c : Collection) (projF docF : Option Str) : Collection :=
  c.filter fun e => !(whereMatches projF docF e.meta)

/-- Embedding of `VectorDB.delete_project`: `False` if no such user, else
deletes every entry whose metadata `project_id` matches. -/
def delete_project (s : Store) (user_id project_id : Str) : Except Unit (Store × Bool) :=
  match tryGetCollection s user_id with
  | Except.error e => Except.error e
  | Except.ok (s1, none) => Except.ok (s1, false)
  | Except.ok (s1, some c) =>
    Except.ok (setCollection s1 user_id (collectionDeleteWhere c (some project_id) none), true)

/-- Embedding of `VectorDB.retrieve`: immediately returns `[]` when both
filters are `None`; `[]` when the collection does not exist; else the
metadata-filtered query. -/
def retrieve (s : Store) (user_id query : Str) (project_id document_id : Option Str)
    (n_results : Nat) : Except Unit (Store × List Str) :=
  if project_id.isNone && document_id.isNone then Except.ok (s, [])
  else
    match tryGetCollection s user_id with
    | Except.error e => Except.error e
    | Except.ok (s1, none) => Except.ok (s1, [])
    | Except.ok (s1, some c) =>
      Except.ok (s1, collectionQuery c project_id document_id n_results)

/-- Embedding of `VectorDB.add_document_to_project`: get-or-create the
tenant's collection, split and hash the text, write all entries, return the
ids. -/
def add_document_to_project (s : Store) (user_id project_id document_id text : Str) :
    Except Unit (Store × List Str) :=
  match getOrCreateCollection s user_id with
  | Except.error e => Except.error e
  | Except.ok (s1, c) =>
    let es := prepareDocument project_id document_id text
    Except.ok (setCollection s1 user_id (collectionAdd c es), es.map fun e => e.id)

/-- Embedding of `VectorDB.add_document_and_query`: write the document's
entries, then query by `document_id`. -/
def add_document_and_query (s : Store) (user_id project_id document_id text query : Str)
    (n_results : Nat) : Except Unit (Store × List Str) :=
  match getOrCreateCollection s user_id with
  | Except.error e => Except.error e
  | Except.ok (s1, c) =>
    let es := prepareDocument project_id document_id text
    let c2 := collectionAdd c es
    Except.ok (setCollection s1 user_id c2, collectionQuery c2 none (some document_id) n_results)

/-- Embedding of `VectorDB.store_and_retrieve`: strip content and query; if
the tenant's collection exists and already holds entries for `document_id`,
query those without writing; otherwise store the document and query it. -/
def store_and_retrieve (s : Store) (user_id project_id document_id content query : Str)
    (n_results : Nat) : Except Unit (Store × List Str) :=
  let content1 := pyStrip content
  let query1 := pyStrip query
  match tryGetCollection s user_id with
  | Except.error e => Except.error e
  | Except.ok (s1, some c) =>
    if ((filterMatch none (some document_id) c).map fun e => e.id).isEmpty then
      add_document_and_query s1 user_id project_id document_id content1 query1 n_results
    else Except.ok (s1, collectionQuery c none (some document_id) n_results)
  | Except.ok (s1, none) =>
    add_document_and_query s1 user_id project_id document_id content1 query1 n_results

/-- Whether the tenant's collection already holds at least one entry for the
given document (the `if metadatas["ids"]` test of `store_and_retrieve`). -/
def hasDocChunks (s : Store) (user_id document_id : Str) : Bool :=
  match lookupCollection s user_id with
  | some c => !(((filterMatch none (some document_id) c).map fun e => e.id).isEmpty)
  | none => false

/-- The `LLMTools.ATTACHMENT_RAG_CUTOFF_LEN` constant of `llm.py`. -/
def ATTACHMENT_RAG_CUTOFF_LEN : Nat := 4096

/-- The `LLMTools.FORCED_ATTACHMENT_MAX_LEN` constant of `llm.py`. -/
def FORCED_ATTACHMENT_MAX_LEN : Nat := 8192

/-- The `ChatAttachment` dataclass of `chat.py`. -/
structure ChatAttachment where
  id : Str
  content : Str
deriving DecidableEq

/-- The `Message` value built by `LLMTools.chat_with_rag`. -/
structure Message where
  role : Str
  content : Str
  attachment : Option Str
deriving DecidableEq

/-- The prompt normalisation at the top of `LLMTools._process_attachments`:
`if user_prompt: user_prompt = user_prompt.strip()` (a falsy prompt — `None`
or the empty string — is left as is). -/
def normPrompt (p : Option Str) : Option Str :=
  p.map fun x => if x.isEmpty then x else pyStrip x

/-- Python truthiness of the optional prompt (`if not user_prompt`). -/
def promptTruthy (p : Option Str) : Bool :=
  match p with
  | none => false
  | some x => !x.isEmpty

/-- Embedding of the inner `retriever` closure of
`LLMTools._process_attachments`: an empty prompt short-circuits to `[]`
without any backend call; otherwise `store_and_retrieve` is invoked (a falsy
`vdb_out` is returned as `[]`, which is the same value). -/
def retrieverFn (s : Store) (user_id project_id : Str) :
    Option Str → Str → Str → Except Unit (Store × List Str)
  | none, _, _ => Except.ok (s, [])
  | some p, doc_id, content =>
    if p.isEmpty then Except.ok (s, [])
    else store_and_retrieve s user_id project_id doc_id content p 2

/-- Embedding of one `for` loop of `LLMTools._process_attachments`: an
attachment whose content length is at most the threshold is appended
verbatim to the accumulator, a longer one contributes the retriever's
output. -/
def attachmentLoop (s : Store) (user_id project_id : Str) (up : Option Str) (thr : Nat)
    (atts : List ChatAttachment) (acc : List Str) : Except Unit (Store × List Str) :=
  match atts with
  | [] => Except.ok (s, acc)
  | a :: rest =>
    if a.content.length ≤ thr then
      attachmentLoop s user_id project_id up thr rest (acc ++ [a.content])
    else
      match retrieverFn s user_id project_id up a.id a.content with
      | Except.error e => Except.error e
      | Except.ok (s1, out) => attachmentLoop s1 user_id project_id up thr rest (acc ++ out)

/-- Python `"\n\n".join(...)`. -/
def joinSep : List Str → Str
  | [] => []
  | [x] => x
  | x :: y :: rest => x ++ ('\n' :: '\n' :: []) ++ joinSep (y :: rest)

/-- Embedding of `LLMTools._process_attachments`: the `attachments` loop with
threshold `FORCED_ATTACHMENT_MAX_LEN`, then the `rag_attachments` loop with
threshold `ATTACHMENT_RAG_CUTOFF_LEN`, joined by blank lines, `None` when
nothing was contributed. -/
def process_attachments (s : Store) (user_id project_id : Str)
    (attachments rag_attachments : List ChatAttachment) (user_prompt : Option Str) :
    Except Unit (Store × Option Str) :=
  let up := normPrompt user_prompt
  match attachmentLoop s user_id project_id up FORCED_ATTACHMENT_MAX_LEN attachments [] with
  | Except.error e => Except.error e
  | Except.ok (s1, shorts1) =>
    match attachmentLoop s1 user_id project_id up ATTACHMENT_RAG_CUTOFF_LEN rag_attachments shorts1 with
    | Except.error e => Except.error e
    | Except.ok (s2, shorts) =>
      Except.ok (s2, if shorts.isEmpty then none else some (joinSep shorts))

/-- Modelled: `Chat.invoke_chat` of `chat.py` contacts the external chat
model; its response content is irrelevant to the claims and abstracted to a
fixed bot message, while the contact itself is recorded in `chatCalls`. -/
def invoke_chat (s : Store) (_msg : Message) (_history : List Message) :
    Store × Option Message :=
  ({ s with chatCalls := s.chatCalls + 1 },
   some { role := 'b' :: 'o' :: 't' :: [], content := [], attachment := none })

/-- Embedding of `LLMTools.chat_with_rag`: a stripped-empty prompt returns
`None` immediately; otherwise attachments are processed, the user message is
built, and the chat model is invoked. -/
def chat_with_rag (s : Store) (user_id project_id user_prompt : Str)
    (attachments rag_attachments : List ChatAttachment) (history : List Message) :
    Except Unit (Store × Option (Message × Option Message)) :=
  let up := pyStrip user_prompt
  if up.isEmpty then Except.ok (s, none)
  else
    match process_attachments s user_id project_id attachments rag_attachments (some up) with
    | Except.error e => Except.error e
    | Except.ok (s1, att) =>
      let userMsg : Message := { role := 'u' :: 's' :: 'e' :: 'r' :: [], content := up, attachment := att }
      let (s2, bot) := invoke_chat s1 userMsg history
      Except.ok (s2, some (userMsg, bot))

/-- Well-formedness of a store: every collection's ids are distinct (true of
every store reachable through the embedded operations). -/
def StoreWF (s : Store) : Prop :=
  ∀ p ∈ s.collections, (p.2.map fun e => e.id).Nodup

/-- Boundedness of a store: every stored chunk content is at most
`CHUNK_SIZE` long (true of every store whose chunks were written by the
embedded upserts, since the splitter's windows are bounded). -/
def BoundedStore (s : Store) : Prop :=
  ∀ p ∈ s.collections, ∀ e ∈ p.2, e.content.length ≤ CHUNK_SIZE

instance (s : Store) : Decidable (StoreWF s) := by
  unfold StoreWF; infer_instance

instance (s : Store) : Decidable (BoundedStore s) := by
  unfold BoundedStore; infer_instance

instance {E A : Type} [DecidableEq E] [DecidableEq A] : DecidableEq (Except E A)
  | Except.error a, Except.error b =>
    if h : a = b then isTrue (by rw [h]) else isFalse fun he => h (Except.error.inj he)
  | Except.error _, Except.ok _ => isFalse Except.noConfusion
  | Except.ok _, Except.error _ => isFalse Except.noConfusion
  | Except.ok a, Except.ok b =>
    if h : a = b then isTrue (by rw [h]) else isFalse fun he => h (Except.ok.inj he)

theorem entryAt_nil (i : Str) : entryAt [] i = none := rfl

theorem entryAt_cons (e : Entry) (c : Collection) (i : Str) :
    entryAt (e :: c) i = if e.id == i then some e else entryAt c i := by
  simp only [entryAt, List.find?]
  cases h : e.id == i <;> simp [h]

theorem addEntry_nil (e : Entry) : addEntry [] e = [e] := rfl

theorem addEntry_cons (x : Entry) (rest : List Entry) (e : Entry) :
    addEntry (x :: rest) e = if x.id == e.id then e :: rest else x :: addEntry rest e := rfl

theorem idsOf_nil : idsOf [] = [] := rfl

theorem idsOf_cons (e : Entry) (c : Collection) : idsOf (e :: c) = e.id :: idsOf c := rfl

theorem entryAt_addEntry (c : Collection) (e : Entry) (i : Str) :
    entryAt (addEntry c e) i = if e.id == i then some e else entryAt c i := by
  induction c with
  | nil => simp [addEntry_nil, entryAt_cons, entryAt_nil]
  | cons x rest ih =>
    by_cases hx : x.id = e.id
    · rw [addEntry_cons, if_pos (by simpa using hx), entryAt_cons, entryAt_cons]
      by_cases hi : e.id = i
      · simp [hi]
      · have hxi : ¬x.id = i := fun h => hi (hx ▸ h)
        simp [hi, hxi]
    · rw [addEntry_cons, if_neg (by simpa using hx), entryAt_cons, ih, entryAt_cons]
      by_cases hxi : x.id = i
      · have hei : ¬e.id = i := fun h => hx (by rw [hxi, h])
        simp [hxi, hei]
      · simp [hxi]

theorem idsOf_addEntry_mem (c : Collection) (e : Entry) (h : e.id ∈ idsOf c) :
    idsOf (addEntry c e) = idsOf c := by
  induction c with
  | nil => simp [idsOf_nil] at h
  | cons x rest ih =>
    by_cases hx : x.id = e.id
    · rw [addEntry_cons, if_pos (by simpa using hx), idsOf_cons, idsOf_cons, hx]
    · have hmem : e.id ∈ idsOf rest := by
        rw [idsOf_cons, List.mem_cons] at h
        rcases h with h | h
        · exact absurd h.symm hx
        · exact h
      rw [addEntry_cons, if_neg (by simpa using hx), idsOf_cons, idsOf_cons, ih hmem]

theorem idsOf_addEntry_not_mem (c : Collection) (e : Entry) (h : e.id ∉ idsOf c) :
    idsOf (addEntry c e) = idsOf c ++ [e.id] := by
  induction c with
  | nil => simp [addEntry_nil, idsOf]
  | cons x rest ih =>
    have hx : ¬x.id = e.id := by
      intro hx
      exact h (by rw [idsOf_cons, hx]; simp)
    have hrest : e.id ∉ idsOf rest := by
      intro hmem
      exact h (by rw [idsOf_cons]; exact List.mem_cons_of_mem _ hmem)
    rw [addEntry_cons, if_neg (by simpa using hx), idsOf_cons, idsOf_cons, ih hrest,
      List.cons_append]

theorem mem_idsOf_addEntry_self (c : Collection) (e : Entry) :
    e.id ∈ idsOf (addEntry c e) := by
  by_cases h : e.id ∈ idsOf c
  · rw [idsOf_addEntry_mem c e h]; exact h
  · rw [idsOf_addEntry_not_mem c e h]; simp

theorem mem_idsOf_addEntry_of_mem (c : Collection) (e : Entry) (i : Str)
    (h : i ∈ idsOf c) : i ∈ idsOf (addEntry c e) := by
  by_cases hm : e.id ∈ idsOf c
  · rw [idsOf_addEntry_mem c e hm]; exact h
  · rw [idsOf_addEntry_not_mem c e hm]; exact List.mem_append_left _ h

theorem nodup_idsOf_addEntry (c : Collection) (e : Entry)
    (h : (idsOf c).Nodup) : (idsOf (addEntry c e)).Nodup := by
  by_cases hm : e.id ∈ idsOf c
  · rw [idsOf_addEntry_mem c e hm]; exact h
  · rw [idsOf_addEntry_not_mem c e hm]
    simp only [List.nodup_append, List.nodup_cons, List.nodup_nil, and_true]
    exact ⟨h, by simpa using fun hmem => hm hmem⟩

theorem collectionAdd_nil (c : Collection) : collectionAdd c [] = c := rfl

theorem collectionAdd_cons (c : Collection) (e : Entry) (es : List Entry) :
    collectionAdd c (e :: es) = collectionAdd (addEntry c e) es := rfl

theorem mem_idsOf_collectionAdd_of_mem (es : List Entry) (c : Collection) (i : Str)
    (h : i ∈ idsOf c) : i ∈ idsOf (collectionAdd c es) := by
  induction es generalizing c with
  | nil => exact h
  | cons e rest ih =>
    rw [collectionAdd_cons]
    exact ih _ (mem_idsOf_addEntry_of_mem c e i h)

theorem mem_idsOf_collectionAdd_of_mem_batch (es : List Entry) (c : Collection)
    (e : Entry) (h : e ∈ es) : e.id ∈ idsOf (collectionAdd c es) := by
  induction es generalizing c with
  | nil => simp at h
  | cons x rest ih =>
    rw [collectionAdd_cons]
    rcases List.mem_cons.mp h with h | h
    · subst h
      exact mem_idsOf_collectionAdd_of_mem rest _ e.id (mem_idsOf_addEntry_self c e)
    · exact ih _ h

theorem idsOf_collectionAdd_of_all_mem (es : List Entry) (c : Collection)
    (h : ∀ e ∈ es, e.id ∈ idsOf c) : idsOf (collectionAdd c es) = idsOf c := by
  induction es generalizing c with
  | nil => rfl
  | cons e rest ih =>
    rw [collectionAdd_cons]
    have he : e.id ∈ idsOf c := h e (by simp)
    have hids : idsOf (addEntry c e) = idsOf c := idsOf_addEntry_mem c e he
    rw [ih _ (fun x hx => hids ▸ h x (by simp [hx])), hids]

theorem nodup_idsOf_collectionAdd (es : List Entry) (c : Collection)
    (h : (idsOf c).Nodup) : (idsOf (collectionAdd c es)).Nodup := by
  induction es generalizing c with
  | nil => exact h
  | cons e rest ih =>
    rw [collectionAdd_cons]
    exact ih _ (nodup_idsOf_addEntry c e h)

theorem entryAt_collectionAdd (es : List Entry) (c : Collection) (i : Str) :
    entryAt (collectionAdd c es) i =
      match lastWrite es i with
      | some v => some v
      | none => entryAt c i := by
  induction es generalizing c with
  | nil => rfl
  | cons e rest ih =>
    rw [collectionAdd_cons, ih]
    cases hl : lastWrite rest i with
    | some v => simp [lastWrite, hl]
    | none =>
      simp only [lastWrite, hl]
      rw [entryAt_addEntry]
      cases he : e.id == i <;> simp [he]

theorem entryAt_eq_none_of_not_mem (c : Collection) (i : Str)
    (h : i ∉ idsOf c) : entryAt c i = none := by
  induction c with
  | nil => rfl
  | cons e rest ih =>
    have hne : ¬e.id = i := fun he => h (by rw [idsOf_cons, he]; simp)
    rw [entryAt_cons, if_neg (by simpa using hne)]
    exact ih fun hm => h (by rw [idsOf_cons]; exact List.mem_cons_of_mem _ hm)

theorem collection_eq_of_idsOf_entryAt (c d : Collection)
    (hids : idsOf c = idsOf d) (hnd : (idsOf c).Nodup)
    (hat : ∀ i, entryAt c i = entryAt d i) : c = d := by
  induction c generalizing d with
  | nil =>
    cases d with
    | nil => rfl
    | cons f d' => simp [idsOf] at hids
  | cons e c' ih =>
    cases d with
    | nil => simp [idsOf] at hids
    | cons f d' =>
      simp only [idsOf, List.map_cons, List.cons.injEq] at hids
      obtain ⟨hid, hids'⟩ := hids
      have hef : e = f := by
        have h1 := hat e.id
        rw [entryAt_cons, entryAt_cons] at h1
        simp only [beq_self_eq_true, if_true] at h1
        have : (f.id == e.id) = true := by simp [hid]
        rw [this] at h1
        simp at h1
        exact h1
      subst hef
      simp only [idsOf, List.map_cons, List.nodup_cons] at hnd
      obtain ⟨hnotmem, hnd'⟩ := hnd
      have hnotmem' : e.id ∉ idsOf d' := by
        show e.id ∉ List.map (fun e => e.id) d'
        rw [← hids']
        exact hnotmem
      have hat' : ∀ i, entryAt c' i = entryAt d' i := by
        intro i
        by_cases hi : e.id = i
        · subst hi
          rw [entryAt_eq_none_of_not_mem c' e.id hnotmem,
            entryAt_eq_none_of_not_mem d' e.id hnotmem']
        · have h1 := hat i
          rw [entryAt_cons, entryAt_cons, if_neg (by simpa using hi), if_neg (by simpa using hi)] at h1
          exact h1
      exact congrArg _ (ih d' hids' hnd' hat')

theorem Store.ext' (a b : Store) (h1 : a.collections = b.collections)
    (h2 : a.avail = b.avail) (h3 : a.vdbCalls = b.vdbCalls) (h4 : a.chatCalls = b.chatCalls) :
    a = b := by
  cases a
  cases b
  simp only [Store.mk.injEq]
  exact ⟨h1, h2, h3, h4⟩

theorem setCollection_collections (s : Store) (u : Str) (c : Collection) :
    (setCollection s u c).collections = (u, c) :: s.collections.filter fun p => p.1 != u := rfl

theorem filter_ne_cons_self (c : Collection) (l : List (Str × Collection)) (u : Str) :
    ((u, c) :: l).filter (fun p => p.1 != u) = l.filter fun p => p.1 != u :=
  List.filter_cons_of_neg (by simp)

theorem filter_ne_idem (l : List (Str × Collection)) (u : Str) :
    (l.filter fun p => p.1 != u).filter (fun p => p.1 != u) = l.filter fun p => p.1 != u := by
  rw [List.filter_filter]
  exact List.filter_congr fun x _ => by cases h : x.1 != u <;> simp [h]

theorem set_set_collections (s : Store) (u : Str) (c c' : Collection) :
    (setCollection (setCollection s u c) u c').collections = (setCollection s u c').collections := by
  rw [setCollection_collections, setCollection_collections, setCollection_collections,
    filter_ne_cons_self, filter_ne_idem]

theorem set_collections_congr (X Y : Store) (u : Str) (c : Collection)
    (h : X.collections = Y.collections) :
    (setCollection X u c).collections = (setCollection Y u c).collections := by
  rw [setCollection_collections, setCollection_collections, h]

theorem lookup_setCollection_self (s : Store) (u : Str) (c : Collection) :
    lookupCollection (setCollection s u c) u = some c := by
  unfold lookupCollection
  rw [setCollection_collections, List.find?_cons_of_pos _ (by simp)]
  rfl

theorem find?_filter_of_imp {α : Type} (l : List α) (p q : α → Bool)
    (h : ∀ x, q x = true → p x = true) : (l.filter p).find? q = l.find? q := by
  induction l with
  | nil => rfl
  | cons x rest ih =>
    by_cases hq : q x = true
    · rw [List.filter_cons_of_pos (h x hq), List.find?_cons_of_pos _ hq,
        List.find?_cons_of_pos _ hq]
    · by_cases hp : p x = true
      · rw [List.filter_cons_of_pos hp, List.find?_cons_of_neg _ hq,
          List.find?_cons_of_neg _ hq, ih]
      · rw [List.filter_cons_of_neg hp, List.find?_cons_of_neg _ hq, ih]

theorem lookup_setCollection_ne (s : Store) (u : Str) (c : Collection) (v : Str)
    (h : ¬v = u) : lookupCollection (setCollection s u c) v = lookupCollection s v := by
  unfold lookupCollection
  rw [setCollection_collections,
    List.find?_cons_of_neg _ (by simpa using fun he => h he.symm),
    find?_filter_of_imp]
  intro x hx
  have hxv : x.1 = v := by simpa using hx
  simp [hxv, h]

theorem storeWF_setCollection (s : Store) (u : Str) (c : Collection)
    (hs : StoreWF s) (hc : (idsOf c).Nodup) : StoreWF (setCollection s u c) := by
  intro p hp
  rw [setCollection_collections] at hp
  rcases List.mem_cons.mp hp with hp | hp
  · rw [hp]
    exact hc
  · exact hs p (List.mem_of_mem_filter hp)

theorem nodup_of_lookup (s : Store) (u : Str) (c : Collection)
    (hs : StoreWF s) (h : lookupCollection s u = some c) : (idsOf c).Nodup := by
  unfold lookupCollection at h
  cases hf : s.collections.find? (fun p => p.1 == u) with
  | none => rw [hf] at h; simp at h
  | some p =>
    rw [hf] at h
    simp only [Option.map_some'] at h
    have hm := hs p (List.mem_of_find?_eq_some hf)
    have hc : p.2 = c := by simpa using h
    rw [← hc]
    exact hm

theorem nodup_baseCollection (s : Store) (u : Str) (hs : StoreWF s) :
    (idsOf (baseCollection s u)).Nodup := by
  unfold baseCollection
  cases hl : lookupCollection s u with
  | none => simp [idsOf]
  | some c => simpa using nodup_of_lookup s u c hs hl

theorem collectionAdd_idem (c : Collection) (es : List Entry)
    (h : (idsOf c).Nodup) :
    collectionAdd (collectionAdd c es) es = collectionAdd c es := by
  have hmem : ∀ e ∈ es, e.id ∈ idsOf (collectionAdd c es) :=
    fun e he => mem_idsOf_collectionAdd_of_mem_batch es c e he
  apply collection_eq_of_idsOf_entryAt
  · exact idsOf_collectionAdd_of_all_mem es _ hmem
  · exact nodup_idsOf_collectionAdd es _ (nodup_idsOf_collectionAdd es c h)
  · intro i
    rw [entryAt_collectionAdd, entryAt_collectionAdd]
    cases hl : lastWrite es i with
    | some v => rfl
    | none => simp only []

theorem add_document_spec (s : Store) (uid pid did text : Str) (hav : s.avail = true) :
    add_document_to_project s uid pid did text =
      Except.ok
        (setCollection { s with vdbCalls := s.vdbCalls + 1 } uid
          (collectionAdd (baseCollection s uid) (prepareDocument pid did text)),
         (prepareDocument pid did text).map fun e => e.id) := by
  unfold add_document_to_project getOrCreateCollection baseCollection
  rw [if_pos hav]
  cases hlook : lookupCollection s uid with
  | some c => rfl
  | none =>
    simp only [Option.getD_none]
    refine congrArg Except.ok (Prod.ext ?_ rfl)
    refine Store.ext' _ _ ?_ rfl rfl rfl
    exact set_set_collections { s with vdbCalls := s.vdbCalls + 1 } uid []
      (collectionAdd [] (prepareDocument pid did text))

theorem storeWF_add_document (s : Store) (uid pid did text : Str) (hav : s.avail = true)
    (hwf : StoreWF s) (s1 : Store) (ids : List Str)
    (h : add_document_to_project s uid pid did text = Except.ok (s1, ids)) :
    StoreWF s1 := by
  rw [add_document_spec s uid pid did text hav] at h
  have h1 : s1 = setCollection { s with vdbCalls := s.vdbCalls + 1 } uid
      (collectionAdd (baseCollection s uid) (prepareDocument pid did text)) := by
    have := (Prod.mk.injEq .. ).mp (Except.ok.inj h)
    exact this.1.symm
  rw [h1]
  exact storeWF_setCollection _ uid _ hwf
    (nodup_idsOf_collectionAdd _ _ (nodup_baseCollection s uid hwf))

/-- C1: invoking `add_document_to_project` twice with the identical
(tenant, project, document, text) returns the identical chunk-id list both
times, and the stored collections (ids, contents and metadata alike) after
the second call are identical to those after the first: the second call is a
logical no-op on the stored chunks. -/
theorem C1_upsert_idempotent (s : Store) (uid pid did text : Str)
    (hav : s.avail = true) (hwf : StoreWF s) :
    ∃ s1 s2 ids,
      add_document_to_project s uid pid did text = Except.ok (s1, ids) ∧
      add_document_to_project s1 uid pid did text = Except.ok (s2, ids) ∧
      s2.collections = s1.collections := by
  have h1 := add_document_spec s uid pid did text hav
  set es := prepareDocument pid did text with hes
  set D := collectionAdd (baseCollection s uid) es with hD
  set S1 := setCollection { s with vdbCalls := s.vdbCalls + 1 } uid D with hS1
  have hav1 : S1.avail = true := hav
  have h2 := add_document_spec S1 uid pid did text hav1
  have hbase : baseCollection S1 uid = D := by
    rw [baseCollection, hS1, lookup_setCollection_self]
    rfl
  rw [hbase] at h2
  have hDnd : (idsOf D).Nodup :=
    nodup_idsOf_collectionAdd es _ (nodup_baseCollection s uid hwf)
  have hidem : collectionAdd D es = D := by
    rw [hD]
    exact collectionAdd_idem _ es (nodup_baseCollection s uid hwf)
  rw [hidem] at h2
  refine ⟨S1, _, es.map fun e => e.id, h1, h2, ?_⟩
  have hc1 : (setCollection { S1 with vdbCalls := S1.vdbCalls + 1 } uid D).collections =
      (setCollection S1 uid D).collections :=
    set_collections_congr _ _ uid D rfl
  rw [hc1, hS1]
  exact set_set_collections { s with vdbCalls := s.vdbCalls + 1 } uid D D

/-- Witness for C1 at a concrete input. -/
theorem C1_witness :
    emptyStore.avail = true ∧ StoreWF emptyStore ∧
    ∃ s1 s2 ids,
      add_document_to_project emptyStore ['u'] ['p'] ['d'] ['h', 'i'] = Except.ok (s1, ids) ∧
      add_document_to_project s1 ['u'] ['p'] ['d'] ['h', 'i'] = Except.ok (s2, ids) ∧
      s2.collections = s1.collections :=
  ⟨rfl, by decide, C1_upsert_idempotent emptyStore ['u'] ['p'] ['d'] ['h', 'i'] rfl (by decide)⟩

/-- C3 counterexample: on a store holding a chunk for tenant `u`, an unscoped
`retrieve` (no project filter, no document filter) returns the ordinary value
`Except.ok []` with the store untouched — it is not a raised error and not a
rejection distinguishable from an empty result, contradicting the claim that
such a call is rejected as a fatal error. -/
theorem C3_counterexample :
    (retrieve
        { collections := [(['u'],
            [{ id := ['i'], content := ['t'],
               meta := { project_id := ['p'], document_id := ['d'], start_index := 0 } }])],
          avail := true, vdbCalls := 0, chatCalls := 0 }
        ['u'] ['q'] none none 1 =
      Except.ok
        ({ collections := [(['u'],
            [{ id := ['i'], content := ['t'],
               meta := { project_id := ['p'], document_id := ['d'], start_index := 0 } }])],
           avail := true, vdbCalls := 0, chatCalls := 0 }, [])) ∧
    ∀ e : Unit,
      retrieve
        { collections := [(['u'],
            [{ id := ['i'], content := ['t'],
               meta := { project_id := ['p'], document_id := ['d'], start_index := 0 } }])],
          avail := true, vdbCalls := 0, chatCalls := 0 }
        ['u'] ['q'] none none 1 ≠ Except.error e := by
  refine ⟨rfl, ?_⟩
  intro e
  cases e
  decide

/-- C3 amended: a similarity query with neither a project filter nor a
document filter is refused by returning the empty list immediately, without
contacting the backend (the store, including its call counter, is unchanged,
so no tenant-wide search runs and no stored content is returned) — but it is
an ordinary empty return value, not a raised error. -/
theorem C3_amended_unscoped_empty (s : Store) (uid q : Str) (n : Nat) :
    retrieve s uid q none none n = Except.ok (s, []) := rfl

/-- C4 counterexample: upserting empty text into a fresh store is not
rejected before backend work — the tenant's collection is created (it was
absent before the call) and the backend is contacted (`vdbCalls` becomes 1);
only the chunk list is empty. -/
theorem C4_counterexample :
    lookupCollection emptyStore ['u'] = none ∧
    add_document_to_project emptyStore ['u'] ['p'] ['d'] [] =
      Except.ok
        ({ collections := [(['u'], [])], avail := true, vdbCalls := 1, chatCalls := 0 }, []) := by
  exact ⟨rfl, rfl⟩

/-- C4 amended: upserting empty (or whitespace-only) text is not rejected up
front: the tenant's collection is still fetched-or-created (one backend
acquisition; a previously absent collection now exists, empty), but splitting
empty content yields no chunk, so the returned id list is empty and no chunk
is ever stored for empty content — every tenant's stored chunks are exactly
as before. -/
theorem C4_amended_empty_text (s : Store) (uid pid did text : Str)
    (hav : s.avail = true) (hempty : pyStrip text = []) :
    ∃ s', add_document_to_project s uid pid did text = Except.ok (s', []) ∧
      s'.vdbCalls = s.vdbCalls + 1 ∧
      ∀ u, lookupCollection s' u = lookupCollection s u ∨
        (u = uid ∧ lookupCollection s u = none ∧ lookupCollection s' u = some []) := by
  have hsplit : prepareDocument pid did text = [] := by
    unfold prepareDocument splitDocuments splitText
    rw [hempty]
    rfl
  rw [add_document_spec s uid pid did text hav, hsplit]
  refine ⟨_, rfl, rfl, ?_⟩
  intro u
  by_cases hu : u = uid
  · subst hu
    rw [lookup_setCollection_self]
    cases hl : lookupCollection s u with
    | some c =>
      left
      rw [collectionAdd_nil, baseCollection, hl]
      rfl
    | none =>
      right
      refine ⟨rfl, rfl, ?_⟩
      rw [collectionAdd_nil, baseCollection, hl]
      rfl
  · left
    rw [lookup_setCollection_ne _ _ _ _ hu]
    rfl

/-- Witness for C4's amended theorem at a concrete input. -/
theorem C4_amended_witness :
    emptyStore.avail = true ∧ pyStrip [' '] = [] ∧
    ∃ s', add_document_to_project emptyStore ['u'] ['p'] ['d'] [' '] = Except.ok (s', []) ∧
      s'.vdbCalls = emptyStore.vdbCalls + 1 ∧
      ∀ u, lookupCollection s' u = lookupCollection emptyStore u ∨
        (u = ['u'] ∧ lookupCollection emptyStore u = none ∧ lookupCollection s' u = some []) :=
  ⟨rfl, by decide, C4_amended_empty_text emptyStore ['u'] ['p'] ['d'] [' '] rfl (by decide)⟩

theorem retrieve_proj_spec (s : Store) (uid q P : Str) (n : Nat) (c : Collection)
    (hav : s.avail = true) (hlook : lookupCollection s uid = some c) :
    retrieve s uid q (some P) none n =
      Except.ok ({ s with vdbCalls := s.vdbCalls + 1 }, collectionQuery c (some P) none n) := by
  unfold retrieve tryGetCollection
  rw [if_neg (by simp), if_pos hav, hlook]

theorem mem_collectionDeleteWhere_proj (c : Collection) (P : Str) (e : Entry) :
    e ∈ collectionDeleteWhere c (some P) none ↔ (e ∈ c ∧ ¬e.meta.project_id = P) := by
  unfold collectionDeleteWhere whereMatches
  rw [List.mem_filter]
  simp

theorem filterMatch_proj_deleted (c : Collection) (P : Str) :
    filterMatch (some P) none (collectionDeleteWhere c (some P) none) = [] := by
  unfold filterMatch collectionDeleteWhere
  rw [List.filter_filter]
  have h : ∀ e ∈ c, (whereMatches (some P) none e.meta && !whereMatches (some P) none e.meta) = false :=
    fun e _ => by cases whereMatches (some P) none e.meta <;> rfl
  rw [List.filter_congr h]
  exact List.filter_false c

theorem filterMatch_proj_other (c : Collection) (P P2 : Str) (hne : ¬P2 = P) :
    filterMatch (some P2) none (collectionDeleteWhere c (some P) none) =
      filterMatch (some P2) none c := by
  unfold filterMatch collectionDeleteWhere
  rw [List.filter_filter]
  refine List.filter_congr fun e _ => ?_
  unfold whereMatches
  simp only [Bool.and_true]
  by_cases h2 : e.meta.project_id = P2
  · simp [h2, hne]
  · simp [h2]

/-- C8: after `delete_project` succeeds for tenant `uid` and project `P`,
the stored collection is exactly the old one with every chunk whose metadata
`project_id` equals `P` removed and every other chunk kept; a query scoped to
`P` returns empty, and a query scoped to any other project `P2` returns the
same list before and after the deletion. -/
theorem C8_delete_project_scoped (s : Store) (uid P : Str) (c : Collection)
    (hav : s.avail = true) (hlook : lookupCollection s uid = some c) :
    ∃ s', delete_project s uid P = Except.ok (s', true) ∧
      lookupCollection s' uid = some (collectionDeleteWhere c (some P) none) ∧
      (∀ e : Entry, e ∈ collectionDeleteWhere c (some P) none ↔
        (e ∈ c ∧ ¬e.meta.project_id = P)) ∧
      (∀ q : Str, ∀ n : Nat, ∃ s2,
        retrieve s' uid q (some P) none n = Except.ok (s2, [])) ∧
      (∀ P2 : Str, ¬P2 = P → ∀ q : Str, ∀ n : Nat, ∃ sa sb,
        retrieve s uid q (some P2) none n =
          Except.ok (sa, collectionQuery c (some P2) none n) ∧
        retrieve s' uid q (some P2) none n =
          Except.ok (sb, collectionQuery c (some P2) none n)) := by
  have hdel : delete_project s uid P =
      Except.ok (setCollection { s with vdbCalls := s.vdbCalls + 1 } uid
        (collectionDeleteWhere c (some P) none), true) := by
    unfold delete_project tryGetCollection
    rw [if_pos hav, hlook]
  set newC := collectionDeleteWhere c (some P) none with hnewC
  set s' := setCollection { s with vdbCalls := s.vdbCalls + 1 } uid newC with hs'
  have hlook' : lookupCollection s' uid = some newC := lookup_setCollection_self _ uid newC
  have hav' : s'.avail = true := hav
  refine ⟨s', hdel, hlook', fun e => mem_collectionDeleteWhere_proj c P e, ?_, ?_⟩
  · intro q n
    refine ⟨{ s' with vdbCalls := s'.vdbCalls + 1 }, ?_⟩
    rw [retrieve_proj_spec s' uid q P n newC hav' hlook']
    unfold collectionQuery
    rw [hnewC, filterMatch_proj_deleted]
    simp
  · intro P2 hne q n
    refine ⟨{ s with vdbCalls := s.vdbCalls + 1 }, { s' with vdbCalls := s'.vdbCalls + 1 },
      retrieve_proj_spec s uid q P2 n c hav hlook, ?_⟩
    rw [retrieve_proj_spec s' uid q P2 n newC hav' hlook']
    unfold collectionQuery
    rw [hnewC, filterMatch_proj_other c P P2 hne]

/-- Witness for C8 at a concrete input: a tenant with one chunk under
project `p` and one under project `r`. -/
theorem C8_witness :
    ({ collections := [(['u'],
        [{ id := ['i'], content := ['s'],
           meta := { project_id := ['p'], document_id := ['d'], start_index := 0 } },
         { id := ['j'], content := ['t'],
           meta := { project_id := ['r'], document_id := ['d'], start_index := 0 } }])],
       avail := true, vdbCalls := 0, chatCalls := 0 } : Store).avail = true ∧
    ∃ s', delete_project
        { collections := [(['u'],
            [{ id := ['i'], content := ['s'],
               meta := { project_id := ['p'], document_id := ['d'], start_index := 0 } },
             { id := ['j'], content := ['t'],
               meta := { project_id := ['r'], document_id := ['d'], start_index := 0 } }])],
          avail := true, vdbCalls := 0, chatCalls := 0 } ['u'] ['p'] = Except.ok (s', true) ∧
      lookupCollection s' ['u'] = some (collectionDeleteWhere
        [{ id := ['i'], content := ['s'],
           meta := { project_id := ['p'], document_id := ['d'], start_index := 0 } },
         { id := ['j'], content := ['t'],
           meta := { project_id := ['r'], document_id := ['d'], start_index := 0 } }] (some ['p']) none) ∧
      (∀ e : Entry, e ∈ collectionDeleteWhere
          [{ id := ['i'], content := ['s'],
             meta := { project_id := ['p'], document_id := ['d'], start_index := 0 } },
           { id := ['j'], content := ['t'],
             meta := { project_id := ['r'], document_id := ['d'], start_index := 0 } }] (some ['p']) none ↔
        (e ∈ [{ id := ['i'], content := ['s'],
                meta := { project_id := ['p'], document_id := ['d'], start_index := 0 } },
              { id := ['j'], content := ['t'],
                meta := { project_id := ['r'], document_id := ['d'], start_index := 0 } }] ∧
          ¬e.meta.project_id = ['p'])) ∧
      (∀ q : Str, ∀ n : Nat, ∃ s2,
        retrieve s' ['u'] q (some ['p']) none n = Except.ok (s2, [])) ∧
      (∀ P2 : Str, ¬P2 = ['p'] → ∀ q : Str, ∀ n : Nat, ∃ sa sb,
        retrieve
          { collections := [(['u'],
              [{ id := ['i'], content := ['s'],
                 meta := { project_id := ['p'], document_id := ['d'], start_index := 0 } },
               { id := ['j'], content := ['t'],
                 meta := { project_id := ['r'], document_id := ['d'], start_index := 0 } }])],
            avail := true, vdbCalls := 0, chatCalls := 0 } ['u'] q (some P2) none n =
          Except.ok (sa, collectionQuery
            [{ id := ['i'], content := ['s'],
               meta := { project_id := ['p'], document_id := ['d'], start_index := 0 } },
             { id := ['j'], content := ['t'],
               meta := { project_id := ['r'], document_id := ['d'], start_index := 0 } }] (some P2) none n) ∧
        retrieve s' ['u'] q (some P2) none n =
          Except.ok (sb, collectionQuery
            [{ id := ['i'], content := ['s'],
               meta := { project_id := ['p'], document_id := ['d'], start_index := 0 } },
             { id := ['j'], content := ['t'],
               meta := { project_id := ['r'], document_id := ['d'], start_index := 0 } }] (some P2) none n)) :=
  ⟨rfl, C8_delete_project_scoped _ ['u'] ['p'] _ rfl rfl⟩

set_option maxRecDepth 10000

theorem add_document_ids (s : Store) (uid pid did text : Str) (s1 : Store) (ids : List Str)
    (h : add_document_to_project s uid pid did text = Except.ok (s1, ids)) :
    ids = (prepareDocument pid did text).map fun e => e.id := by
  by_cases hav : s.avail = true
  · rw [add_document_spec s uid pid did text hav] at h
    exact ((Prod.mk.injEq .. ).mp (Except.ok.inj h)).2.symm
  · unfold add_document_to_project getOrCreateCollection at h
    rw [if_neg hav] at h
    exact absurd h Except.noConfusion

theorem mem_prepareDocument_id (pid did text : Str) (e : Entry)
    (h : e ∈ prepareDocument pid did text) :
    ∃ p ∈ splitText text, e.id = p.1 ++ pid ++ did ∧ e.content = p.1 := by
  unfold prepareDocument splitDocuments at h
  obtain ⟨p, hp, he⟩ := List.mem_map.mp h
  exact ⟨p, hp, by rw [← he]; rfl, by rw [← he]⟩

/-- C2 counterexample: two different texts whose chunkings share a chunk.
`textA` is 1000 identical characters (a single chunk, itself); `textB`
extends it by 200 more, so `textB`'s first window is exactly `textA` and the
two upserts share that chunk's id — the returned id lists are not
disjoint. -/
theorem C2_counterexample :
    ∃ s1 s2 idsA idsB,
      add_document_to_project emptyStore ['u'] ['p'] ['d'] (List.replicate 1000 'a') =
        Except.ok (s1, idsA) ∧
      add_document_to_project s1 ['u'] ['p'] ['d'] (List.replicate 1200 'a') =
        Except.ok (s2, idsB) ∧
      List.replicate 1000 'a' ≠ List.replicate 1200 'a' ∧
      (List.replicate 1000 'a' ++ ['p'] ++ ['d']) ∈ idsA ∧
      (List.replicate 1000 'a' ++ ['p'] ++ ['d']) ∈ idsB := by
  refine ⟨_, _, _, _, rfl, rfl, by decide, by decide, by decide⟩

/-- C2 amended: upserts of two texts under the same (tenant, project,
document) yield disjoint id lists provided no chunk content produced from one
text coincides with a chunk content produced from the other; the id depends
only on the chunk content within a fixed project and document, so two
different texts that share a chunk (for instance one extending the other at a
window boundary) share that chunk's id. -/
theorem C2_amended_disjoint_without_shared_chunk
    (sa sb s1 s2 : Store) (uid pid did tA tB : Str) (idsA idsB : List Str)
    (hA : add_document_to_project sa uid pid did tA = Except.ok (s1, idsA))
    (hB : add_document_to_project sb uid pid did tB = Except.ok (s2, idsB))
    (hnoshare : ∀ p ∈ splitText tA, ∀ q ∈ splitText tB, p.1 ≠ q.1) :
    ∀ i, i ∈ idsA → i ∉ idsB := by
  intro i hiA hiB
  rw [add_document_ids sa uid pid did tA s1 idsA hA] at hiA
  rw [add_document_ids sb uid pid did tB s2 idsB hB] at hiB
  obtain ⟨eA, heA, hidA⟩ := List.mem_map.mp hiA
  obtain ⟨eB, heB, hidB⟩ := List.mem_map.mp hiB
  obtain ⟨p, hp, hpid, _⟩ := mem_prepareDocument_id pid did tA eA heA
  obtain ⟨q, hq, hqid, _⟩ := mem_prepareDocument_id pid did tB eB heB
  have hid : p.1 ++ pid ++ did = q.1 ++ pid ++ did := by
    rw [← hpid, ← hqid, hidA, hidB]
  have h1 : p.1 ++ pid = q.1 ++ pid := List.append_cancel_right hid
  exact hnoshare p hp q hq (List.append_cancel_right h1)

/-- Witness for C2's amended theorem: two one-character texts with distinct
chunk contents yield disjoint id lists. -/
theorem C2_amended_witness :
    ∃ s1 s2 idsA idsB,
      add_document_to_project emptyStore ['u'] ['p'] ['d'] ['x'] = Except.ok (s1, idsA) ∧
      add_document_to_project emptyStore ['u'] ['p'] ['d'] ['y'] = Except.ok (s2, idsB) ∧
      (∀ p ∈ splitText ['x'], ∀ q ∈ splitText ['y'], p.1 ≠ q.1) ∧
      ∀ i, i ∈ idsA → i ∉ idsB := by
  refine ⟨_, _, _, _, rfl, rfl, by decide, ?_⟩
  exact C2_amended_disjoint_without_shared_chunk emptyStore emptyStore _ _ ['u'] ['p'] ['d']
    ['x'] ['y'] _ _ rfl rfl (by decide)

theorem length_filter_id_le_one (c : Collection) (h : (idsOf c).Nodup) (i : Str) :
    (c.filter fun e => e.id == i).length ≤ 1 := by
  induction c with
  | nil => simp
  | cons e rest ih =>
    rw [idsOf_cons, List.nodup_cons] at h
    by_cases he : e.id = i
    · rw [List.filter_cons_of_pos (by simpa using he)]
      have hnil : rest.filter (fun e => e.id == i) = [] := by
        rw [List.filter_eq_nil_iff]
        intro x hx hxi
        exact h.1 (List.mem_map.mpr ⟨x, hx, by
          have : x.id = i := by simpa using hxi
          rw [this, he]⟩)
      rw [hnil]
      simp
    · rw [List.filter_cons_of_neg (by simpa using he)]
      exact ih h.2

/-- C9: the chunk id is derived only from (content, project, document) and
not from the start offset, so any two chunks of a document's split with
identical content receive the identical id; and after any upsert into a
well-formed store, every id names at most one stored entry — identical
overlapping windows are deduplicated by the keyed overwrite rather than
stored per offset. -/
theorem C9_dedup_identical_windows (pid did text : Str) :
    (∀ e1 e2 : Entry, e1 ∈ prepareDocument pid did text →
      e2 ∈ prepareDocument pid did text → e1.content = e2.content → e1.id = e2.id) ∧
    (∀ s : Store, StoreWF s → ∀ uid : Str, ∀ s1 : Store, ∀ ids : List Str,
      add_document_to_project s uid pid did text = Except.ok (s1, ids) →
      ∀ c, lookupCollection s1 uid = some c →
        ∀ i : Str, (c.filter fun e => e.id == i).length ≤ 1) := by
  constructor
  · intro e1 e2 h1 h2 hcont
    obtain ⟨p, _, hpid, hpcont⟩ := mem_prepareDocument_id pid did text e1 h1
    obtain ⟨q, _, hqid, hqcont⟩ := mem_prepareDocument_id pid did text e2 h2
    rw [hpid, hqid]
    rw [hpcont, hqcont] at hcont
    rw [hcont]
  · intro s hwf uid s1 ids h c hc i
    have hav : s.avail = true := by
      by_contra hav
      unfold add_document_to_project getOrCreateCollection at h
      rw [if_neg hav] at h
      exact absurd h Except.noConfusion
    have hwf1 : StoreWF s1 := storeWF_add_document s uid pid did text hav hwf s1 ids h
    exact length_filter_id_le_one c (nodup_of_lookup s1 uid c hwf1 hc) i

/-- Witness for C9 at a concrete input: 1800 identical characters split into
two windows with identical content at offsets 0 and 800, and after the upsert
every id names at most one stored entry. -/
theorem C9_witness :
    splitText (List.replicate 1800 'a') =
      [(List.replicate 1000 'a', 0), (List.replicate 1000 'a', 800)] ∧
    StoreWF emptyStore ∧
    ∃ s1 ids,
      add_document_to_project emptyStore ['u'] ['p'] ['d'] (List.replicate 1800 'a') =
        Except.ok (s1, ids) ∧
      ∀ c, lookupCollection s1 ['u'] = some c →
        ∀ i : Str, (c.filter fun e => e.id == i).length ≤ 1 := by
  refine ⟨by decide, by decide, _, _, rfl, ?_⟩
  intro c hc i
  exact (C9_dedup_identical_windows ['p'] ['d'] (List.replicate 1800 'a')).2
    emptyStore (by decide) ['u'] _ _ rfl c hc i

theorem add_document_and_query_spec (s : Store) (uid pid did text q : Str) (n : Nat)
    (hav : s.avail = true) :
    add_document_and_query s uid pid did text q n =
      Except.ok
        (setCollection { s with vdbCalls := s.vdbCalls + 1 } uid
          (collectionAdd (baseCollection s uid) (prepareDocument pid did text)),
         collectionQuery (collectionAdd (baseCollection s uid) (prepareDocument pid did text))
           none (some did) n) := by
  unfold add_document_and_query getOrCreateCollection baseCollection
  rw [if_pos hav]
  cases hlook : lookupCollection s uid with
  | some c => rfl
  | none =>
    simp only [Option.getD_none]
    refine congrArg Except.ok (Prod.ext ?_ rfl)
    refine Store.ext' _ _ ?_ rfl rfl rfl
    exact set_set_collections _ uid [] _

theorem store_and_retrieve_spec_existing (s : Store) (uid pid did content q : Str) (n : Nat)
    (hav : s.avail = true) (hhas : hasDocChunks s uid did = true) :
    store_and_retrieve s uid pid did content q n =
      Except.ok ({ s with vdbCalls := s.vdbCalls + 1 },
        collectionQuery (baseCollection s uid) none (some did) n) := by
  unfold hasDocChunks at hhas
  cases hlook : lookupCollection s uid with
  | none => rw [hlook] at hhas; exact absurd hhas Bool.false_ne_true
  | some c =>
    rw [hlook] at hhas
    have hhas1 : (!((filterMatch none (some did) c).map fun e => e.id).isEmpty) = true := hhas
    have hne : ¬((filterMatch none (some did) c).map fun e => e.id).isEmpty = true := by
      intro hx
      rw [hx] at hhas1
      exact absurd hhas1 (by decide)
    have hb : baseCollection s uid = c := by
      unfold baseCollection
      rw [hlook]
      rfl
    simp only [store_and_retrieve, tryGetCollection, if_pos hav, hlook]
    rw [if_neg hne, hb]

theorem store_and_retrieve_spec_absent (s : Store) (uid pid did content q : Str) (n : Nat)
    (hav : s.avail = true) (hhas : hasDocChunks s uid did = false) :
    store_and_retrieve s uid pid did content q n =
      Except.ok
        (setCollection { s with vdbCalls := s.vdbCalls + 2 } uid
          (collectionAdd (baseCollection s uid) (prepareDocument pid did (pyStrip content))),
         collectionQuery
           (collectionAdd (baseCollection s uid) (prepareDocument pid did (pyStrip content)))
           none (some did) n) := by
  unfold hasDocChunks at hhas
  cases hlook : lookupCollection s uid with
  | none =>
    simp only [store_and_retrieve, tryGetCollection, if_pos hav, hlook]
    rw [add_document_and_query_spec { s with vdbCalls := s.vdbCalls + 1 } uid pid did
      (pyStrip content) (pyStrip q) n hav]
    rfl
  | some c =>
    rw [hlook] at hhas
    have hhas1 : (!((filterMatch none (some did) c).map fun e => e.id).isEmpty) = false := hhas
    have hemp : ((filterMatch none (some did) c).map fun e => e.id).isEmpty = true := by
      cases hx : ((filterMatch none (some did) c).map fun e => e.id).isEmpty with
      | true => rfl
      | false => rw [hx] at hhas1; exact absurd hhas1 (by decide)
    simp only [store_and_retrieve, tryGetCollection, if_pos hav, hlook]
    rw [if_pos hemp]
    rw [add_document_and_query_spec { s with vdbCalls := s.vdbCalls + 1 } uid pid did
      (pyStrip content) (pyStrip q) n hav]
    rfl

/-- C5 amended: on each invocation the router queries the index for the
attachment's document, but it (re)writes the attachment's current content
only when the index holds no chunk for that document; when chunks for the
document already exist — even from different content — nothing is written and
the existing chunks are queried, the retrieved chunk texts replacing the full
content in the aggregated output. -/
theorem C5_amended_upsert_only_if_absent (s : Store) (uid pid did content q : Str) (n : Nat)
    (hav : s.avail = true) :
    (hasDocChunks s uid did = true →
      ∃ s', store_and_retrieve s uid pid did content q n =
          Except.ok (s', collectionQuery (baseCollection s uid) none (some did) n) ∧
        s'.collections = s.collections) ∧
    (hasDocChunks s uid did = false →
      ∃ s', store_and_retrieve s uid pid did content q n =
          Except.ok (s', collectionQuery
            (collectionAdd (baseCollection s uid) (prepareDocument pid did (pyStrip content)))
            none (some did) n) ∧
        lookupCollection s' uid =
          some (collectionAdd (baseCollection s uid) (prepareDocument pid did (pyStrip content)))) := by
  constructor
  · intro hhas
    exact ⟨{ s with vdbCalls := s.vdbCalls + 1 },
      store_and_retrieve_spec_existing s uid pid did content q n hav hhas, rfl⟩
  · intro hhas
    exact ⟨setCollection { s with vdbCalls := s.vdbCalls + 2 } uid
        (collectionAdd (baseCollection s uid) (prepareDocument pid did (pyStrip content))),
      store_and_retrieve_spec_absent s uid pid did content q n hav hhas,
      lookup_setCollection_self _ uid _⟩

/-- Witness for C5's amended theorem at a concrete input (a store that
already holds a chunk for the document, so the existing-chunks branch of the
conclusion applies with its hypothesis discharged). -/
theorem C5_amended_witness :
    ({ collections := [(['u'],
        [{ id := ['x'], content := ['o','l','d'],
           meta := { project_id := ['p'], document_id := ['d'], start_index := 0 } }])],
       avail := true, vdbCalls := 0, chatCalls := 0 } : Store).avail = true ∧
    hasDocChunks
      { collections := [(['u'],
          [{ id := ['x'], content := ['o','l','d'],
             meta := { project_id := ['p'], document_id := ['d'], start_index := 0 } }])],
        avail := true, vdbCalls := 0, chatCalls := 0 } ['u'] ['d'] = true ∧
    ∃ s', store_and_retrieve
        { collections := [(['u'],
            [{ id := ['x'], content := ['o','l','d'],
               meta := { project_id := ['p'], document_id := ['d'], start_index := 0 } }])],
          avail := true, vdbCalls := 0, chatCalls := 0 } ['u'] ['p'] ['d'] ['n','e','w'] ['q'] 2 =
        Except.ok (s', collectionQuery (baseCollection
          { collections := [(['u'],
              [{ id := ['x'], content := ['o','l','d'],
                 meta := { project_id := ['p'], document_id := ['d'], start_index := 0 } }])],
            avail := true, vdbCalls := 0, chatCalls := 0 } ['u']) none (some ['d']) 2) ∧
      s'.collections =
        ({ collections := [(['u'],
            [{ id := ['x'], content := ['o','l','d'],
               meta := { project_id := ['p'], document_id := ['d'], start_index := 0 } }])],
           avail := true, vdbCalls := 0, chatCalls := 0 } : Store).collections :=
  ⟨rfl, by decide,
    (C5_amended_upsert_only_if_absent _ ['u'] ['p'] ['d'] ['n','e','w'] ['q'] 2 rfl).1 (by decide)⟩

theorem attachmentLoop_nil (s : Store) (uid pid : Str) (up : Option Str) (thr : Nat)
    (acc : List Str) : attachmentLoop s uid pid up thr [] acc = Except.ok (s, acc) := rfl

theorem attachmentLoop_cons_short (s : Store) (uid pid : Str) (up : Option Str) (thr : Nat)
    (a : ChatAttachment) (rest : List ChatAttachment) (acc : List Str)
    (h : a.content.length ≤ thr) :
    attachmentLoop s uid pid up thr (a :: rest) acc =
      attachmentLoop s uid pid up thr rest (acc ++ [a.content]) := by
  simp only [attachmentLoop]
  rw [if_pos h]

theorem attachmentLoop_cons_long (s : Store) (uid pid : Str) (up : Option Str) (thr : Nat)
    (a : ChatAttachment) (rest : List ChatAttachment) (acc : List Str)
    (h : ¬a.content.length ≤ thr) :
    attachmentLoop s uid pid up thr (a :: rest) acc =
      match retrieverFn s uid pid up a.id a.content with
      | Except.error e => Except.error e
      | Except.ok (s1, out) => attachmentLoop s1 uid pid up thr rest (acc ++ out) := by
  simp only [attachmentLoop]
  rw [if_neg h]

theorem attachmentLoop_all_short (uid pid : Str) (up : Option Str) (thr : Nat) :
    ∀ (atts : List ChatAttachment) (s : Store) (acc : List Str),
      (∀ a ∈ atts, a.content.length ≤ thr) →
      attachmentLoop s uid pid up thr atts acc =
        Except.ok (s, acc ++ atts.map fun a => a.content) := by
  intro atts
  induction atts with
  | nil =>
    intro s acc _
    rw [attachmentLoop_nil]
    simp
  | cons a rest ih =>
    intro s acc h
    rw [attachmentLoop_cons_short _ _ _ _ _ _ _ _ (h a (by simp)),
      ih s _ fun b hb => h b (List.mem_cons_of_mem _ hb)]
    simp

theorem retrieverFn_unavail (s : Store) (uid pid p did content : Str)
    (hpe : ¬p.isEmpty = true) (hav : s.avail = false) :
    retrieverFn s uid pid (some p) did content = Except.error () := by
  simp only [retrieverFn]
  rw [if_neg hpe]
  unfold store_and_retrieve tryGetCollection
  rw [if_neg (by rw [hav]; exact Bool.false_ne_true)]

theorem attachmentLoop_unavail (uid pid p : Str) (hpe : ¬p.isEmpty = true) (thr : Nat) :
    ∀ (atts : List ChatAttachment) (s : Store) (acc : List Str), s.avail = false →
      (∃ a ∈ atts, ¬a.content.length ≤ thr) →
      attachmentLoop s uid pid (some p) thr atts acc = Except.error () := by
  intro atts
  induction atts with
  | nil =>
    intro s acc _ hex
    simp at hex
  | cons a rest ih =>
    intro s acc hav hex
    by_cases hlen : a.content.length ≤ thr
    · rw [attachmentLoop_cons_short _ _ _ _ _ _ _ _ hlen]
      refine ih s _ hav ?_
      rcases hex with ⟨b, hb, hbl⟩
      rcases List.mem_cons.mp hb with hb | hb
      · exact absurd hlen (hb ▸ hbl)
      · exact ⟨b, hb, hbl⟩
    · rw [attachmentLoop_cons_long _ _ _ _ _ _ _ _ hlen,
        retrieverFn_unavail s uid pid p a.id a.content hpe hav]

theorem store_and_retrieve_ok (s : Store) (uid pid did content q : Str) (n : Nat)
    (hav : s.avail = true) :
    ∃ s' out, store_and_retrieve s uid pid did content q n = Except.ok (s', out) ∧
      s'.avail = true := by
  cases hh : hasDocChunks s uid did with
  | true => exact ⟨_, _, store_and_retrieve_spec_existing s uid pid did content q n hav hh, hav⟩
  | false => exact ⟨_, _, store_and_retrieve_spec_absent s uid pid did content q n hav hh, hav⟩

theorem retrieverFn_ok (s : Store) (uid pid : Str) (up : Option Str) (did content : Str)
    (hav : s.avail = true) :
    ∃ s' out, retrieverFn s uid pid up did content = Except.ok (s', out) ∧ s'.avail = true := by
  cases up with
  | none => exact ⟨s, [], rfl, hav⟩
  | some p =>
    by_cases hpe : p.isEmpty = true
    · refine ⟨s, [], ?_, hav⟩
      simp only [retrieverFn]
      rw [if_pos hpe]
    · obtain ⟨s', out, h, hv⟩ := store_and_retrieve_ok s uid pid did content p 2 hav
      refine ⟨s', out, ?_, hv⟩
      simp only [retrieverFn]
      rw [if_neg hpe]
      exact h

theorem attachmentLoop_ok (uid pid : Str) (up : Option Str) (thr : Nat) :
    ∀ (atts : List ChatAttachment) (s : Store) (acc : List Str), s.avail = true →
      ∃ s' out, attachmentLoop s uid pid up thr atts acc = Except.ok (s', out) ∧
        s'.avail = true := by
  intro atts
  induction atts with
  | nil =>
    intro s acc hav
    exact ⟨s, acc, rfl, hav⟩
  | cons a rest ih =>
    intro s acc hav
    by_cases hlen : a.content.length ≤ thr
    · obtain ⟨s', out, h, hv⟩ := ih s (acc ++ [a.content]) hav
      exact ⟨s', out, by rw [attachmentLoop_cons_short _ _ _ _ _ _ _ _ hlen]; exact h, hv⟩
    · obtain ⟨s1, out1, h1, hv1⟩ := retrieverFn_ok s uid pid up a.id a.content hav
      obtain ⟨s', out, h, hv⟩ := ih s1 (acc ++ out1) hv1
      refine ⟨s', out, ?_, hv⟩
      rw [attachmentLoop_cons_long _ _ _ _ _ _ _ _ hlen, h1]
      exact h

theorem normPrompt_not_empty (p : Str) (hp : ¬p.isEmpty = true) :
    normPrompt (some p) = some (pyStrip p) := by
  unfold normPrompt
  rw [Option.map_some']
  rw [if_neg hp]

theorem process_attachments_loop1_error (s : Store) (uid pid : Str)
    (atts ratts : List ChatAttachment) (uprompt : Option Str)
    (h : attachmentLoop s uid pid (normPrompt uprompt) FORCED_ATTACHMENT_MAX_LEN atts [] =
      Except.error ()) :
    process_attachments s uid pid atts ratts uprompt = Except.error () := by
  simp only [process_attachments, h]

theorem process_attachments_loop2_error (s : Store) (uid pid : Str)
    (atts ratts : List ChatAttachment) (uprompt : Option Str) (s1 : Store) (shorts1 : List Str)
    (h1 : attachmentLoop s uid pid (normPrompt uprompt) FORCED_ATTACHMENT_MAX_LEN atts [] =
      Except.ok (s1, shorts1))
    (h2 : attachmentLoop s1 uid pid (normPrompt uprompt) ATTACHMENT_RAG_CUTOFF_LEN ratts shorts1 =
      Except.error ()) :
    process_attachments s uid pid atts ratts uprompt = Except.error () := by
  simp only [process_attachments, h1, h2]

theorem process_attachments_ok_spec (s : Store) (uid pid : Str)
    (atts ratts : List ChatAttachment) (uprompt : Option Str) (s1 : Store) (shorts1 : List Str)
    (s2 : Store) (shorts : List Str)
    (h1 : attachmentLoop s uid pid (normPrompt uprompt) FORCED_ATTACHMENT_MAX_LEN atts [] =
      Except.ok (s1, shorts1))
    (h2 : attachmentLoop s1 uid pid (normPrompt uprompt) ATTACHMENT_RAG_CUTOFF_LEN ratts shorts1 =
      Except.ok (s2, shorts)) :
    process_attachments s uid pid atts ratts uprompt =
      Except.ok (s2, if shorts.isEmpty then none else some (joinSep shorts)) := by
  simp only [process_attachments, h1, h2]

/-- C6 amended: an empty retrieval result contributes nothing and processing
continues (whenever the backend is reachable the whole context-assembly call
succeeds); but a raised backend failure is not caught — if the upsert or
similarity query of some over-threshold attachment raises (backend
unreachable), the exception propagates and the overall context-assembly call
fails, losing every attachment's contribution. -/
theorem C6_amended_failure_propagates :
    (∀ (s : Store) (uid pid p : Str) (atts ratts : List ChatAttachment),
      s.avail = false → ¬(pyStrip p).isEmpty = true →
      ((∃ a ∈ atts, ¬a.content.length ≤ FORCED_ATTACHMENT_MAX_LEN) ∨
        ((∀ a ∈ atts, a.content.length ≤ FORCED_ATTACHMENT_MAX_LEN) ∧
          ∃ a ∈ ratts, ¬a.content.length ≤ ATTACHMENT_RAG_CUTOFF_LEN)) →
      process_attachments s uid pid atts ratts (some p) = Except.error ()) ∧
    (∀ (s : Store) (uid pid : Str) (atts ratts : List ChatAttachment) (up : Option Str),
      s.avail = true →
      ∃ s' o, process_attachments s uid pid atts ratts up = Except.ok (s', o)) := by
  constructor
  · intro s uid pid p atts ratts hav hne hlong
    have hp : ¬p.isEmpty = true := by
      intro h
      have hpnil : p = [] := List.isEmpty_iff.mp h
      exact hne (by rw [hpnil]; rfl)
    have hnorm : normPrompt (some p) = some (pyStrip p) := normPrompt_not_empty p hp
    rcases hlong with hA | ⟨hshort, hR⟩
    · refine process_attachments_loop1_error s uid pid atts ratts (some p) ?_
      rw [hnorm]
      exact attachmentLoop_unavail uid pid (pyStrip p) hne FORCED_ATTACHMENT_MAX_LEN atts s []
        hav hA
    · refine process_attachments_loop2_error s uid pid atts ratts (some p) s
        (atts.map fun a => a.content) ?_ ?_
      · rw [hnorm]
        exact attachmentLoop_all_short uid pid (some (pyStrip p)) FORCED_ATTACHMENT_MAX_LEN
          atts s [] hshort
      · rw [hnorm]
        exact attachmentLoop_unavail uid pid (pyStrip p) hne ATTACHMENT_RAG_CUTOFF_LEN ratts s _
          hav hR
  · intro s uid pid atts ratts up hav
    obtain ⟨s1, o1, h1, hv1⟩ :=
      attachmentLoop_ok uid pid (normPrompt up) FORCED_ATTACHMENT_MAX_LEN atts s [] hav
    obtain ⟨s2, o2, h2, hv2⟩ :=
      attachmentLoop_ok uid pid (normPrompt up) ATTACHMENT_RAG_CUTOFF_LEN ratts s1 o1 hv1
    exact ⟨s2, _, process_attachments_ok_spec s uid pid atts ratts up s1 o1 s2 o2 h1 h2⟩

/-- Witness for C6's amended theorem at concrete inputs: with an unreachable
backend, a long rag-attachment makes the call fail; with a reachable backend
the call succeeds. -/
theorem C6_amended_failure_witness :
    process_attachments
      { collections := [], avail := false, vdbCalls := 0, chatCalls := 0 }
      ['u'] ['p'] [] [{ id := ['d'], content := List.replicate 4097 'a' }] (some ['q']) =
      Except.error () ∧
    ∃ s' o, process_attachments emptyStore ['u'] ['p']
      [{ id := ['e'], content := ['h', 'i'] }] [] (some ['q']) = Except.ok (s', o) :=
  ⟨C6_amended_failure_propagates.1
      { collections := [], avail := false, vdbCalls := 0, chatCalls := 0 }
      ['u'] ['p'] ['q'] [] [{ id := ['d'], content := List.replicate 4097 'a' }] rfl (by decide)
      (Or.inr ⟨fun a ha => absurd ha (List.not_mem_nil a),
        ⟨{ id := ['d'], content := List.replicate 4097 'a' }, List.mem_singleton_self _,
          by rw [List.length_replicate]; decide⟩⟩),
    C6_amended_failure_propagates.2 emptyStore ['u'] ['p']
      [{ id := ['e'], content := ['h', 'i'] }] [] (some ['q']) rfl⟩

/-- C6 counterexample: the backend being unreachable for the single long
attachment makes the whole context-assembly call raise — the short attachment
preceding it contributes nothing either, and the overall call fails because
of that one attachment's failure. -/
theorem C6_counterexample :
    process_attachments
      { collections := [], avail := false, vdbCalls := 0, chatCalls := 0 }
      ['u'] ['p'] [{ id := ['e'], content := ['h', 'i'] }]
      [{ id := ['d'], content := List.replicate 4097 'a' }] (some ['q']) =
      Except.error () := by
  refine process_attachments_loop2_error _ ['u'] ['p'] _ _ (some ['q'])
    { collections := [], avail := false, vdbCalls := 0, chatCalls := 0 } [['h', 'i']] ?_ ?_
  · rw [normPrompt_not_empty ['q'] (by decide)]
    exact attachmentLoop_all_short ['u'] ['p'] (some (pyStrip ['q'])) FORCED_ATTACHMENT_MAX_LEN
      [{ id := ['e'], content := ['h', 'i'] }] _ [] (by decide)
  · rw [normPrompt_not_empty ['q'] (by decide)]
    exact attachmentLoop_unavail ['u'] ['p'] (pyStrip ['q']) (by decide)
      ATTACHMENT_RAG_CUTOFF_LEN [{ id := ['d'], content := List.replicate 4097 'a' }] _ _ rfl
      ⟨{ id := ['d'], content := List.replicate 4097 'a' }, List.mem_singleton_self _,
        by rw [List.length_replicate]; decide⟩

/-- C10: a user prompt that strips to empty makes `chat_with_rag` return
`None` with the store unchanged (neither the vector store nor the chat model
is contacted, as both call counters are untouched); and inside attachment
processing, a falsy prompt makes the retriever return the empty list with the
store unchanged (no backend call). -/
theorem C10_empty_prompt_noop :
    (∀ (s : Store) (uid pid prompt : Str) (atts ratts : List ChatAttachment)
      (hist : List Message), (pyStrip prompt).isEmpty = true →
      chat_with_rag s uid pid prompt atts ratts hist = Except.ok (s, none)) ∧
    (∀ (s : Store) (uid pid : Str) (up : Option Str) (did content : Str),
      promptTruthy up = false →
      retrieverFn s uid pid up did content = Except.ok (s, [])) := by
  constructor
  · intro s uid pid prompt atts ratts hist h
    simp only [chat_with_rag]
    rw [if_pos h]
  · intro s uid pid up did content h
    cases up with
    | none => rfl
    | some p =>
      have hpe : p.isEmpty = true := by
        unfold promptTruthy at h
        simpa using h
      simp only [retrieverFn]
      rw [if_pos hpe]

/-- Witness for C10 at concrete inputs: a whitespace-only prompt and a falsy
retriever prompt. -/
theorem C10_witness :
    (pyStrip [' ', ' ']).isEmpty = true ∧
    chat_with_rag emptyStore ['u'] ['p'] [' ', ' '] [] [] [] = Except.ok (emptyStore, none) ∧
    promptTruthy (some []) = false ∧
    retrieverFn emptyStore ['u'] ['p'] (some []) ['d'] ['c'] = Except.ok (emptyStore, []) :=
  ⟨by decide,
    C10_empty_prompt_noop.1 emptyStore ['u'] ['p'] [' ', ' '] [] [] [] (by decide),
    by decide,
    C10_empty_prompt_noop.2 emptyStore ['u'] ['p'] (some []) ['d'] ['c'] (by decide)⟩

/-- C5 counterexample: the document `d` already has a stored chunk (content
"old"), and the router is invoked with a 4097-character attachment for `d`
(over the rag threshold 4096) and a non-empty prompt; the call succeeds but
the store is left exactly as it was — the attachment's current content is NOT
written to the index — and the query answers from the pre-existing chunk, so
the aggregated output is the old chunk text. -/
theorem C5_counterexample :
    ∃ s', process_attachments
        { collections := [(['u'],
            [{ id := ['x'], content := ['o', 'l', 'd'],
               meta := { project_id := ['p'], document_id := ['d'], start_index := 0 } }])],
          avail := true, vdbCalls := 0, chatCalls := 0 }
        ['u'] ['p'] [] [{ id := ['d'], content := List.replicate 4097 'a' }] (some ['q']) =
        Except.ok (s', some ['o', 'l', 'd']) ∧
      s'.collections =
        [(['u'],
          [{ id := ['x'], content := ['o', 'l', 'd'],
             meta := { project_id := ['p'], document_id := ['d'], start_index := 0 } }])] := by
  have hlen : ¬({ id := ['d'], content := List.replicate 4097 'a' } : ChatAttachment).content.length ≤
      ATTACHMENT_RAG_CUTOFF_LEN := by
    show ¬(List.replicate 4097 'a').length ≤ ATTACHMENT_RAG_CUTOFF_LEN
    rw [List.length_replicate]
    decide
  have hret : retrieverFn
      { collections := [(['u'],
          [{ id := ['x'], content := ['o', 'l', 'd'],
             meta := { project_id := ['p'], document_id := ['d'], start_index := 0 } }])],
        avail := true, vdbCalls := 0, chatCalls := 0 }
      ['u'] ['p'] (some ['q']) ['d'] (List.replicate 4097 'a') =
      Except.ok
        ({ collections := [(['u'],
            [{ id := ['x'], content := ['o', 'l', 'd'],
               meta := { project_id := ['p'], document_id := ['d'], start_index := 0 } }])],
           avail := true, vdbCalls := 1, chatCalls := 0 }, [['o', 'l', 'd']]) := by
    simp only [retrieverFn]
    rw [if_neg (by decide)]
    rw [store_and_retrieve_spec_existing _ ['u'] ['p'] ['d'] _ ['q'] 2 rfl (by decide)]
    rfl
  have h2 : attachmentLoop
      { collections := [(['u'],
          [{ id := ['x'], content := ['o', 'l', 'd'],
             meta := { project_id := ['p'], document_id := ['d'], start_index := 0 } }])],
        avail := true, vdbCalls := 0, chatCalls := 0 }
      ['u'] ['p'] (normPrompt (some ['q'])) ATTACHMENT_RAG_CUTOFF_LEN
      [{ id := ['d'], content := List.replicate 4097 'a' }] [] =
      Except.ok
        ({ collections := [(['u'],
            [{ id := ['x'], content := ['o', 'l', 'd'],
               meta := { project_id := ['p'], document_id := ['d'], start_index := 0 } }])],
           avail := true, vdbCalls := 1, chatCalls := 0 }, [['o', 'l', 'd']]) := by
    rw [show normPrompt (some ['q']) = some ['q'] from by decide]
    rw [attachmentLoop_cons_long _ _ _ _ _ _ _ _ hlen, hret]
    rfl
  have heq : process_attachments
      { collections := [(['u'],
          [{ id := ['x'], content := ['o', 'l', 'd'],
             meta := { project_id := ['p'], document_id := ['d'], start_index := 0 } }])],
        avail := true, vdbCalls := 0, chatCalls := 0 }
      ['u'] ['p'] [] [{ id := ['d'], content := List.replicate 4097 'a' }] (some ['q']) =
      Except.ok
        ({ collections := [(['u'],
            [{ id := ['x'], content := ['o', 'l', 'd'],
               meta := { project_id := ['p'], document_id := ['d'], start_index := 0 } }])],
           avail := true, vdbCalls := 1, chatCalls := 0 }, some ['o', 'l', 'd']) := by
    rw [process_attachments_ok_spec _ ['u'] ['p'] _ _ (some ['q']) _ [] _ [['o', 'l', 'd']]
      (attachmentLoop_nil _ _ _ _ _ _) h2]
    rfl
  exact ⟨_, heq, rfl⟩

theorem slideAux_chunk_le (fuel : Nat) : ∀ (cs : Str) (off : Nat) (p : Str × Nat),
    p ∈ slideAux fuel cs off → p.1.length ≤ CHUNK_SIZE := by
  induction fuel with
  | zero =>
    intro cs off p hp
    simp [slideAux] at hp
  | succ n ih =>
    intro cs off p hp
    simp only [slideAux] at hp
    by_cases hle : cs.length ≤ CHUNK_SIZE
    · rw [if_pos hle] at hp
      rcases List.mem_singleton.mp hp with hp
      rw [hp]
      exact hle
    · rw [if_neg hle] at hp
      rcases List.mem_cons.mp hp with hp | hp
      · rw [hp]
        simp only [List.length_take]
        exact min_le_left _ _
      · exact ih _ _ p hp

theorem splitText_chunk_le (t : Str) (p : Str × Nat) (hp : p ∈ splitText t) :
    p.1.length ≤ CHUNK_SIZE := by
  simp only [splitText] at hp
  by_cases he : (pyStrip t).isEmpty = true
  · rw [if_pos he] at hp
    simp at hp
  · rw [if_neg he] at hp
    exact slideAux_chunk_le _ _ _ p hp

theorem prepareDocument_content_le (pid did text : Str) (e : Entry)
    (h : e ∈ prepareDocument pid did text) : e.content.length ≤ CHUNK_SIZE := by
  obtain ⟨p, hp, _, hc⟩ := mem_prepareDocument_id pid did text e h
  rw [hc]
  exact splitText_chunk_le text p hp

theorem mem_addEntry (c : Collection) (e : Entry) (x : Entry) (h : x ∈ addEntry c e) :
    x ∈ c ∨ x = e := by
  induction c with
  | nil =>
    rw [addEntry_nil] at h
    exact Or.inr (List.mem_singleton.mp h)
  | cons y rest ih =>
    rw [addEntry_cons] at h
    by_cases hy : (y.id == e.id) = true
    · rw [if_pos hy] at h
      rcases List.mem_cons.mp h with h | h
      · exact Or.inr h
      · exact Or.inl (List.mem_cons_of_mem _ h)
    · rw [if_neg hy] at h
      rcases List.mem_cons.mp h with h | h
      · exact Or.inl (h ▸ List.mem_cons_self y rest)
      · rcases ih h with h | h
        · exact Or.inl (List.mem_cons_of_mem _ h)
        · exact Or.inr h

theorem mem_collectionAdd (es : List Entry) : ∀ (c : Collection) (x : Entry),
    x ∈ collectionAdd c es → x ∈ c ∨ x ∈ es := by
  induction es with
  | nil =>
    intro c x h
    exact Or.inl h
  | cons e rest ih =>
    intro c x h
    rw [collectionAdd_cons] at h
    rcases ih _ x h with h | h
    · rcases mem_addEntry c e x h with h | h
      · exact Or.inl h
      · exact Or.inr (h ▸ List.mem_cons_self e rest)
    · exact Or.inr (List.mem_cons_of_mem _ h)

theorem boundedStore_lookup (s : Store) (u : Str) (c : Collection)
    (hb : BoundedStore s) (h : lookupCollection s u = some c) :
    ∀ e ∈ c, e.content.length ≤ CHUNK_SIZE := by
  unfold lookupCollection at h
  cases hf : s.collections.find? (fun p => p.1 == u) with
  | none => rw [hf] at h; simp at h
  | some p =>
    rw [hf] at h
    simp only [Option.map_some'] at h
    intro e he
    have hc : p.2 = c := by simpa using h
    exact hb p (List.mem_of_find?_eq_some hf) e (hc ▸ he)

theorem boundedStore_set (s : Store) (u : Str) (c : Collection)
    (hb : BoundedStore s) (hc : ∀ e ∈ c, e.content.length ≤ CHUNK_SIZE) :
    BoundedStore (setCollection s u c) := by
  intro p hp
  rw [setCollection_collections] at hp
  rcases List.mem_cons.mp hp with hp | hp
  · rw [hp]
    exact hc
  · exact hb p (List.mem_of_mem_filter hp)

theorem boundedColl_base (s : Store) (u : Str) (hb : BoundedStore s) :
    ∀ e ∈ baseCollection s u, e.content.length ≤ CHUNK_SIZE := by
  unfold baseCollection
  cases hl : lookupCollection s u with
  | none =>
    intro e he
    simp at he
  | some c => simpa using boundedStore_lookup s u c hb hl

theorem collectionQuery_mem (c : Collection) (pf df : Option Str) (k : Nat) (x : Str)
    (h : x ∈ collectionQuery c pf df k) : ∃ e ∈ c, x = e.content := by
  unfold collectionQuery filterMatch at h
  have h1 := List.mem_of_mem_take h
  obtain ⟨e, he, hx⟩ := List.mem_map.mp h1
  exact ⟨e, List.mem_of_mem_filter he, hx.symm⟩

theorem store_and_retrieve_bounded (s : Store) (uid pid did content q : Str) (n : Nat)
    (hav : s.avail = true) (hb : BoundedStore s) :
    ∃ s' out, store_and_retrieve s uid pid did content q n = Except.ok (s', out) ∧
      s'.avail = true ∧ BoundedStore s' ∧ ∀ x ∈ out, x.length ≤ CHUNK_SIZE := by
  cases hh : hasDocChunks s uid did with
  | true =>
    refine ⟨_, _, store_and_retrieve_spec_existing s uid pid did content q n hav hh, hav, hb, ?_⟩
    intro x hx
    obtain ⟨e, he, hxe⟩ := collectionQuery_mem _ _ _ _ x hx
    rw [hxe]
    exact boundedColl_base s uid hb e he
  | false =>
    have hD : ∀ e ∈ collectionAdd (baseCollection s uid)
        (prepareDocument pid did (pyStrip content)), e.content.length ≤ CHUNK_SIZE := by
      intro e he
      rcases mem_collectionAdd _ _ e he with he | he
      · exact boundedColl_base s uid hb e he
      · exact prepareDocument_content_le _ _ _ e he
    refine ⟨_, _, store_and_retrieve_spec_absent s uid pid did content q n hav hh, hav,
      boundedStore_set _ uid _ hb hD, ?_⟩
    intro x hx
    obtain ⟨e, he, hxe⟩ := collectionQuery_mem _ _ _ _ x hx
    rw [hxe]
    exact hD e he

theorem retrieverFn_bounded (s : Store) (uid pid : Str) (up : Option Str) (did content : Str)
    (hav : s.avail = true) (hb : BoundedStore s) :
    ∃ s' out, retrieverFn s uid pid up did content = Except.ok (s', out) ∧
      s'.avail = true ∧ BoundedStore s' ∧ ∀ x ∈ out, x.length ≤ CHUNK_SIZE := by
  cases up with
  | none => exact ⟨s, [], rfl, hav, hb, fun x hx => absurd hx (List.not_mem_nil x)⟩
  | some p =>
    by_cases hpe : p.isEmpty = true
    · refine ⟨s, [], ?_, hav, hb, fun x hx => absurd hx (List.not_mem_nil x)⟩
      simp only [retrieverFn]
      rw [if_pos hpe]
    · obtain ⟨s', out, h, hv, hb', ho⟩ :=
        store_and_retrieve_bounded s uid pid did content p 2 hav hb
      refine ⟨s', out, ?_, hv, hb', ho⟩
      simp only [retrieverFn]
      rw [if_neg hpe]
      exact h

theorem attachmentLoop_contribs (uid pid : Str) (up : Option Str) (thr : Nat)
    (hthr : CHUNK_SIZE ≤ thr) :
    ∀ (atts : List ChatAttachment) (s : Store) (acc : List Str) (s' : Store) (out : List Str),
      s.avail = true → BoundedStore s →
      attachmentLoop s uid pid up thr atts acc = Except.ok (s', out) →
      s'.avail = true ∧ BoundedStore s' ∧
      ∃ contribs : List (List Str),
        out = acc ++ contribs.flatten ∧
        List.Forall₂ (fun (a : ChatAttachment) (contrib : List Str) =>
          (a.content.length ≤ thr → contrib = [a.content]) ∧
          (¬a.content.length ≤ thr →
            a.content ∉ contrib ∧ ∀ x ∈ contrib, x.length ≤ CHUNK_SIZE)) atts contribs := by
  intro atts
  induction atts with
  | nil =>
    intro s acc s' out hav hb h
    rw [attachmentLoop_nil] at h
    have h' := Except.ok.inj h
    have hs : s = s' := congrArg Prod.fst h'
    have hout : acc = out := congrArg Prod.snd h'
    exact ⟨hs ▸ hav, hs ▸ hb, [], by rw [← hout]; simp, List.Forall₂.nil⟩
  | cons a rest ih =>
    intro s acc s' out hav hb h
    by_cases hlen : a.content.length ≤ thr
    · rw [attachmentLoop_cons_short _ _ _ _ _ _ _ _ hlen] at h
      obtain ⟨hv, hb', contribs, hout, hrel⟩ := ih s _ s' out hav hb h
      refine ⟨hv, hb', [a.content] :: contribs, ?_,
        List.Forall₂.cons ⟨fun _ => rfl, fun hc => absurd hlen hc⟩ hrel⟩
      rw [hout]
      simp
    · rw [attachmentLoop_cons_long _ _ _ _ _ _ _ _ hlen] at h
      obtain ⟨s1, out1, h1, hv1, hb1, hbo⟩ :=
        retrieverFn_bounded s uid pid up a.id a.content hav hb
      rw [h1] at h
      obtain ⟨hv, hb', contribs, hout, hrel⟩ := ih s1 (acc ++ out1) s' out hv1 hb1 h
      have hnotmem : a.content ∉ out1 := fun hmem =>
        hlen (le_trans (hbo a.content hmem) hthr)
      refine ⟨hv, hb', out1 :: contribs, ?_,
        List.Forall₂.cons ⟨fun hc => absurd hc hlen, fun _ => ⟨hnotmem, hbo⟩⟩ hrel⟩
      rw [hout]
      simp

theorem short_content_mem_flatten (thr : Nat) :
    ∀ (atts : List ChatAttachment) (contribs : List (List Str)),
      List.Forall₂ (fun (a : ChatAttachment) (contrib : List Str) =>
        (a.content.length ≤ thr → contrib = [a.content]) ∧
        (¬a.content.length ≤ thr →
          a.content ∉ contrib ∧ ∀ x ∈ contrib, x.length ≤ CHUNK_SIZE)) atts contribs →
      ∀ a ∈ atts, a.content.length ≤ thr → a.content ∈ contribs.flatten := by
  intro atts contribs h
  induction h with
  | nil =>
    intro a ha
    simp at ha
  | cons hR _ ih =>
    intro a ha hlen
    rcases List.mem_cons.mp ha with ha | ha
    · subst ha
      rw [List.flatten_cons]
      refine List.mem_append_left _ ?_
      rw [hR.1 hlen]
      simp
    · rw [List.flatten_cons]
      exact List.mem_append_right _ (ih a ha hlen)

theorem joinSep_mem_infix : ∀ (l : List Str) (x : Str), x ∈ l →
    ∃ pre post, joinSep l = pre ++ x ++ post := by
  intro l
  induction l with
  | nil =>
    intro x hx
    simp at hx
  | cons y rest ih =>
    intro x hx
    rcases List.mem_cons.mp hx with hx | hx
    · subst hx
      cases rest with
      | nil => exact ⟨[], [], by simp [joinSep]⟩
      | cons z rs => exact ⟨[], ('\n' :: '\n' :: []) ++ joinSep (z :: rs), by simp [joinSep]⟩
    · obtain ⟨pre, post, hp⟩ := ih x hx
      cases rest with
      | nil => simp at hx
      | cons z rs =>
        refine ⟨y ++ ('\n' :: '\n' :: []) ++ pre, post, ?_⟩
        show joinSep (y :: z :: rs) = _
        simp only [joinSep]
        rw [hp]
        simp

theorem process_attachments_inv (s : Store) (uid pid : Str) (atts ratts : List ChatAttachment)
    (uprompt : Option Str) (s' : Store) (out : Option Str)
    (h : process_attachments s uid pid atts ratts uprompt = Except.ok (s', out)) :
    ∃ s1 shorts1 shorts,
      attachmentLoop s uid pid (normPrompt uprompt) FORCED_ATTACHMENT_MAX_LEN atts [] =
        Except.ok (s1, shorts1) ∧
      attachmentLoop s1 uid pid (normPrompt uprompt) ATTACHMENT_RAG_CUTOFF_LEN ratts shorts1 =
        Except.ok (s', shorts) ∧
      out = if shorts.isEmpty then none else some (joinSep shorts) := by
  cases h1 : attachmentLoop s uid pid (normPrompt uprompt) FORCED_ATTACHMENT_MAX_LEN atts [] with
  | error e =>
    cases e
    rw [process_attachments_loop1_error s uid pid atts ratts uprompt h1] at h
    exact absurd h Except.noConfusion
  | ok p1 =>
    obtain ⟨s1, shorts1⟩ := p1
    cases h2 : attachmentLoop s1 uid pid (normPrompt uprompt) ATTACHMENT_RAG_CUTOFF_LEN
        ratts shorts1 with
    | error e =>
      cases e
      rw [process_attachments_loop2_error s uid pid atts ratts uprompt s1 shorts1 h1 h2] at h
      exact absurd h Except.noConfusion
    | ok p2 =>
      obtain ⟨s2, shorts⟩ := p2
      rw [process_attachments_ok_spec s uid pid atts ratts uprompt s1 shorts1 s2 shorts h1 h2] at h
      have h' := Except.ok.inj h
      have hs : s2 = s' := congrArg Prod.fst h'
      have hout : (if shorts.isEmpty then none else some (joinSep shorts)) = out :=
        congrArg Prod.snd h'
      exact ⟨s1, shorts1, shorts, rfl, hs ▸ h2, hout.symm⟩

/-- C7: whenever context assembly succeeds, each attachment contributes one
piece: an attachment whose content length is at most its threshold (8192 for
`attachments`, 4096 for `rag_attachments`) contributes exactly its content,
which then appears verbatim inside the assembled context; an attachment over
its threshold never contributes its full content — its contribution consists
only of retrieved chunk texts (each at most the chunk size 1000, hence
shorter than the over-threshold content), or is empty. -/
theorem C7_threshold_verbatim_or_chunks (s : Store) (uid pid : Str)
    (atts ratts : List ChatAttachment) (uprompt : Option Str) (s' : Store) (out : Option Str)
    (hav : s.avail = true) (hb : BoundedStore s)
    (h : process_attachments s uid pid atts ratts uprompt = Except.ok (s', out)) :
    ∃ (cA cR : List (List Str)),
      List.Forall₂ (fun (a : ChatAttachment) (contrib : List Str) =>
        (a.content.length ≤ FORCED_ATTACHMENT_MAX_LEN → contrib = [a.content]) ∧
        (¬a.content.length ≤ FORCED_ATTACHMENT_MAX_LEN →
          a.content ∉ contrib ∧ ∀ x ∈ contrib, x.length ≤ CHUNK_SIZE)) atts cA ∧
      List.Forall₂ (fun (a : ChatAttachment) (contrib : List Str) =>
        (a.content.length ≤ ATTACHMENT_RAG_CUTOFF_LEN → contrib = [a.content]) ∧
        (¬a.content.length ≤ ATTACHMENT_RAG_CUTOFF_LEN →
          a.content ∉ contrib ∧ ∀ x ∈ contrib, x.length ≤ CHUNK_SIZE)) ratts cR ∧
      out = (if (cA.flatten ++ cR.flatten).isEmpty then none
             else some (joinSep (cA.flatten ++ cR.flatten))) ∧
      (∀ a ∈ atts, a.content.length ≤ FORCED_ATTACHMENT_MAX_LEN →
        ∃ ctx, out = some ctx ∧ ∃ pre post, ctx = pre ++ a.content ++ post) ∧
      (∀ a ∈ ratts, a.content.length ≤ ATTACHMENT_RAG_CUTOFF_LEN →
        ∃ ctx, out = some ctx ∧ ∃ pre post, ctx = pre ++ a.content ++ post) := by
  obtain ⟨s1, shorts1, shorts, h1, h2, hout⟩ :=
    process_attachments_inv s uid pid atts ratts uprompt s' out h
  obtain ⟨hv1, hb1, cA, hsh1, hrelA⟩ :=
    attachmentLoop_contribs uid pid (normPrompt uprompt) FORCED_ATTACHMENT_MAX_LEN (by decide)
      atts s [] s1 shorts1 hav hb h1
  obtain ⟨_, _, cR, hsh2, hrelR⟩ :=
    attachmentLoop_contribs uid pid (normPrompt uprompt) ATTACHMENT_RAG_CUTOFF_LEN (by decide)
      ratts s1 shorts1 s' shorts hv1 hb1 h2
  have hshorts : shorts = cA.flatten ++ cR.flatten := by
    rw [hsh2, hsh1]
    simp
  have hmem_some : ∀ x : Str, x ∈ shorts →
      ∃ ctx, out = some ctx ∧ ∃ pre post, ctx = pre ++ x ++ post := by
    intro x hx
    have hne : shorts.isEmpty = false := by
      cases hie : shorts.isEmpty with
      | false => rfl
      | true => exact absurd (List.isEmpty_iff.mp hie ▸ hx) (List.not_mem_nil x)
    refine ⟨joinSep shorts, ?_, joinSep_mem_infix shorts x hx⟩
    rw [hout, hne]
    rfl
  refine ⟨cA, cR, hrelA, hrelR, by rw [hout, hshorts], ?_, ?_⟩
  · intro a ha hlen
    refine hmem_some a.content ?_
    rw [hshorts]
    exact List.mem_append_left _
      (short_content_mem_flatten FORCED_ATTACHMENT_MAX_LEN atts cA hrelA a ha hlen)
  · intro a ha hlen
    refine hmem_some a.content ?_
    rw [hshorts]
    exact List.mem_append_right _
      (short_content_mem_flatten ATTACHMENT_RAG_CUTOFF_LEN ratts cR hrelR a ha hlen)

/-- Witness for C7 at a concrete input: one short attachment and no rag
attachments; the call succeeds and the conclusion is instantiated. -/
theorem C7_witness :
    emptyStore.avail = true ∧ BoundedStore emptyStore ∧
    process_attachments emptyStore ['u'] ['p'] [{ id := ['e'], content := ['h', 'i'] }] []
      (some ['q']) = Except.ok (emptyStore, some ['h', 'i']) ∧
    ∃ (cA cR : List (List Str)),
      List.Forall₂ (fun (a : ChatAttachment) (contrib : List Str) =>
        (a.content.length ≤ FORCED_ATTACHMENT_MAX_LEN → contrib = [a.content]) ∧
        (¬a.content.length ≤ FORCED_ATTACHMENT_MAX_LEN →
          a.content ∉ contrib ∧ ∀ x ∈ contrib, x.length ≤ CHUNK_SIZE))
        [{ id := ['e'], content := ['h', 'i'] }] cA ∧
      List.Forall₂ (fun (a : ChatAttachment) (contrib : List Str) =>
        (a.content.length ≤ ATTACHMENT_RAG_CUTOFF_LEN → contrib = [a.content]) ∧
        (¬a.content.length ≤ ATTACHMENT_RAG_CUTOFF_LEN →
          a.content ∉ contrib ∧ ∀ x ∈ contrib, x.length ≤ CHUNK_SIZE)) ([] : List ChatAttachment) cR ∧
      some ['h', 'i'] = (if (cA.flatten ++ cR.flatten).isEmpty then none
             else some (joinSep (cA.flatten ++ cR.flatten))) ∧
      (∀ a ∈ [({ id := ['e'], content := ['h', 'i'] } : ChatAttachment)],
        a.content.length ≤ FORCED_ATTACHMENT_MAX_LEN →
        ∃ ctx, (some ['h', 'i'] : Option Str) = some ctx ∧
          ∃ pre post, ctx = pre ++ a.content ++ post) ∧
      (∀ a ∈ ([] : List ChatAttachment), a.content.length ≤ ATTACHMENT_RAG_CUTOFF_LEN →
        ∃ ctx, (some ['h', 'i'] : Option Str) = some ctx ∧
          ∃ pre post, ctx = pre ++ a.content ++ post) :=
  ⟨rfl, by decide, rfl,
    C7_threshold_verbatim_or_chunks emptyStore ['u'] ['p']
      [{ id := ['e'], content := ['h', 'i'] }] [] (some ['q']) emptyStore (some ['h', 'i'])
      rfl (by decide) rfl⟩

end Cobweb
